import Mathlib

/-!
# steps-cache-pull: a verification development for `main.go`

The program resolves a download URL, stages the cache archive at a fixed local
path and restores the archive entries onto the filesystem.  This file embeds
the program over an explicit world state (a filesystem, the HTTP exchanges
made so far and a record of the calls made) and proves the properties of its
retry policy, its entry dispatch and its filesystem effects.

Conventions of the embedding:

* The filesystem is a name space (canonical absolute path to directory entry)
  plus an inode table; symbolic links are followed as the kernel does, hard
  links share an inode.  The kernel clock is part of the state: creating,
  truncating and writing a file stamp its modification time with the clock,
  and the clock moves on with every stamp.
* The state records which files the process owns and whether it is
  privileged.  A process that is not privileged opens an existing file for
  writing only with the owner write bit (the write bit for others, when the
  file is not its own), changes the mode and the times of its own files only,
  and clears the setuid and setgid bits of a file by writing to it.  Groups
  are not told apart from others.  The directories on the way are searchable
  and writable by the process, an existing file can be opened for reading,
  and the device does not fail (no full disk).
* Reading the archive is lazy, as in the program: every `Next` and every
  payload read sees the staging file as it is at that moment.  The loop over
  the archive therefore carries a bound on the number of iterations; a run
  that needs more returns `none`.
* The network, the JSON decoder and the tar and gzip decoders belong to the
  Go standard library and to the outside world; they are parameters (`Env`).
* Log output is not part of the state.
-/

namespace CachePull

/-! ## Errors and byte strings -/

/-- A byte string; each element is a byte value. -/
abbrev Bytes := List Nat

/-- The error numbers the filesystem calls of the model can return. -/
inductive Errno
  | ENOENT | ENOTDIR | EEXIST | EISDIR | ELOOP | EINVAL | EPERM | EACCES
  deriving DecidableEq, Repr

/-- The text of an error number. -/
def Errno.text : Errno → String
  | .ENOENT => "no such file or directory"
  | .ENOTDIR => "not a directory"
  | .EEXIST => "file exists"
  | .EISDIR => "is a directory"
  | .ELOOP => "too many levels of symbolic links"
  | .EINVAL => "invalid argument"
  | .EPERM => "operation not permitted"
  | .EACCES => "permission denied"

/-- Go `error` values: a `PathError` (operation, path, error number), a
`LinkError` (operation, old and new path, error number), or an error carrying
a message (built by `fmt.Errorf`, or reported by the transport or a
decoder). -/
inductive Err
  | path (op : String) (name : String) (e : Errno)
  | link (op : String) (old : String) (new : String) (e : Errno)
  | text (msg : String)
  deriving DecidableEq, Repr

/-- The method `Error()` of an error value. -/
def Err.Error : Err → String
  | .path op name e => op ++ " " ++ name ++ ": " ++ e.text
  | .link op old new e => op ++ " " ++ old ++ " " ++ new ++ ": " ++ e.text
  | .text m => m

/-! ## Paths (`path/filepath`, Unix flavour) -/

/-- Split a character list at every slash (empty pieces are kept). -/
def splitSlash : List Char → List (List Char)
  | [] => [[]]
  | c :: cs =>
    if c = '/' then [] :: splitSlash cs
    else
      match splitSlash cs with
      | [] => [[c]]
      | w :: ws => (c :: w) :: ws

/-- Whether the path starts with a slash. -/
def isAbs (path : String) : Bool :=
  match path.data with
  | c :: _ => c == '/'
  | [] => false

/-- Whether the path ends with a slash. -/
def endsWithSlash (path : String) : Bool :=
  match path.data.reverse with
  | c :: _ => c == '/'
  | [] => false

/-- The non-empty elements of a path, in order. -/
def elems (path : String) : List String :=
  ((splitSlash path.data).filter (fun w => !w.isEmpty)).map String.mk

/-- The components the kernel walks for a path: its elements, and a final `.`
when the path ends with a slash (a trailing slash demands a directory). -/
def comps (path : String) : List String :=
  elems path ++ (if endsWithSlash path then ["."] else [])

/-- The element stack of `filepath.Clean`: `.` is dropped, `..` removes the
element before it when there is one, is dropped at the root of a rooted path
and is kept otherwise.  The stack is held in reverse. -/
def cleanStack (rooted : Bool) : List String → List String → List String
  | st, [] => st.reverse
  | st, c :: cs =>
    if c = "." then cleanStack rooted st cs
    else if c = ".." then
      match st with
      | top :: st1 =>
        if top = ".." then cleanStack rooted (".." :: st) cs
        else cleanStack rooted st1 cs
      | [] => if rooted then cleanStack rooted [] cs else cleanStack rooted [".."] cs
    else cleanStack rooted (c :: st) cs

/-- Go `filepath.Clean`. -/
def Clean (path : String) : String :=
  let body := String.intercalate "/" (cleanStack (isAbs path) [] (elems path))
  if isAbs path then "/" ++ body
  else if body = "" then "." else body

/-- Go `filepath.Dir`: everything up to the last slash, cleaned. -/
def Dir (path : String) : String :=
  Clean (String.mk (path.data.reverse.dropWhile (fun c => c != '/')).reverse)

/-- Go `filepath.Join` of two elements: empty elements are ignored, the rest is
joined with a slash and cleaned. -/
def Join (a b : String) : String :=
  if a ≠ "" then Clean (a ++ "/" ++ b)
  else if b ≠ "" then Clean b
  else ""

/-- The shortest leading part of a path that holds its first `k` non-empty
elements (`inElem` tells whether the scan stands inside an element). -/
def elemPrefixAux : Nat → Bool → List Char → List Char
  | _, _, [] => []
  | k, inElem, c :: cs =>
    if c = '/' then
      if inElem ∧ k = 0 then [] else c :: elemPrefixAux k false cs
    else
      if inElem then c :: elemPrefixAux k true cs
      else
        match k with
        | 0 => []
        | k1 + 1 => c :: elemPrefixAux k1 true cs

/-- The path `os.MkdirAll` names in its error when it stops at element number
`k` (from 1): the path up to the end of that element, and the whole argument
when that element is the last one. -/
def elemPrefix (path : String) (k : Nat) : String :=
  if k ≥ (elems path).length then path
  else String.mk (elemPrefixAux k false path.data)

/-! ## The filesystem -/

/-- What the inode table keeps for a regular file; `mtime` counts nanoseconds
from the Unix epoch. -/
structure Inode where
  content : Bytes
  mode : Nat
  mtime : Int
  deriving DecidableEq, Repr

/-- A directory entry: a directory, a name of a file inode, or a symbolic link
with its stored target. -/
inductive Dirent
  | dir (mode : Nat)
  | file (ino : Nat)
  | symlink (target : String)
  deriving DecidableEq, Repr

/-- The name space: canonical absolute paths (lists of names from the root) to
directory entries. -/
abbrev Tree := List String → Option Dirent

/-- Lookup; the root always exists and is a directory. -/
def Tree.get (t : Tree) (p : List String) : Option Dirent :=
  if p = [] then some (.dir 0o755) else t p

/-- Bind a path to a directory entry. -/
def Tree.set (t : Tree) (p : List String) (d : Dirent) : Tree :=
  fun q => if q = p then some d else t q

/-- The filesystem state seen by the process: name space, inode table, which
inodes the process owns, next free inode number, working directory, kernel
clock (nanoseconds from the Unix epoch), whether the process is privileged,
and its umask. -/
structure FS where
  tree : Tree
  inodes : Nat → Inode
  owns : Nat → Bool
  next : Nat
  cwd : List String
  now : Int
  privileged : Bool
  umask : Nat

/-- Replace one inode. -/
def setInode (f : Nat → Inode) (i : Nat) (v : Inode) : Nat → Inode :=
  fun j => if j = i then v else f j

/-- Whether the mode has the bit `b` (a power of two). -/
def hasBit (m b : Nat) : Bool := (m / b) % 2 == 1

/-- The mode without the bit `b`. -/
def dropBit (m b : Nat) : Nat := if hasBit m b then m - b else m

/-- The owner write bit. -/
def ownerWritable (m : Nat) : Bool := hasBit m 0o200

/-- Whether the process may open the file for writing: it is privileged, or it
owns the file and the owner write bit is set, or it does not own the file and
the write bit for others is set. -/
def FS.mayWrite (s : FS) (i : Nat) : Bool :=
  s.privileged || (if s.owns i then ownerWritable (s.inodes i).mode
    else hasBit (s.inodes i).mode 0o002)

/-- Whether the process may change the mode and the times of the file: it is
privileged or owns the file. -/
def FS.mayChange (s : FS) (i : Nat) : Bool := s.privileged || s.owns i

/-- What a write or a truncation by an unprivileged process does to the mode:
setuid is cleared, and setgid is cleared when the group execute bit is set. -/
def killPriv (m : Nat) : Nat :=
  if hasBit (dropBit m 0o4000) 0o010 then dropBit (dropBit m 0o4000) 0o2000
  else dropBit m 0o4000

/-- The mode a write or truncation leaves. -/
def FS.afterWrite (s : FS) (m : Nat) : Nat := if s.privileged then m else killPriv m

/-- The permission bits a new file or directory gets from the requested ones
under the umask. -/
def FS.masked (s : FS) (perm : Nat) : Nat := perm &&& (0o7777 ^^^ (s.umask &&& 0o7777))

/-- The outcome of a path walk: the canonical location reached and the entry
found there (`none`: the last component does not exist, its parent does). -/
abbrev Resolved := List String × Option Dirent

/-- One level of path resolution from directory `cur` over the remaining
components; `expand` continues the walk from a directory over a
component list when a symbolic link is entered. -/
def walkStep (t : Tree) (expand : List String → List String → Except Errno Resolved)
    (follow : Bool) : List String → List String → Except Errno Resolved
  | cur, [] => .ok (cur, t.get cur)
  | cur, c :: rest =>
    if c = "." then walkStep t expand follow cur rest
    else if c = ".." then walkStep t expand follow cur.dropLast rest
    else
      match t.get (cur ++ [c]) with
      | none => if rest = [] then .ok (cur ++ [c], none) else .error .ENOENT
      | some (.dir _) => walkStep t expand follow (cur ++ [c]) rest
      | some (.file i) =>
        if rest = [] then .ok (cur ++ [c], some (.file i)) else .error .ENOTDIR
      | some (.symlink tg) =>
        if rest = [] ∧ follow = false then .ok (cur ++ [c], some (.symlink tg))
        else if tg = "" then .error .ENOENT
        else expand (if isAbs tg then [] else cur) (comps tg ++ rest)

/-- Path resolution with a budget of symbolic links to enter (`ELOOP` when it
is used up). -/
def walk (t : Tree) (follow : Bool) : Nat → List String → List String → Except Errno Resolved
  | 0 => fun _ _ => .error .ELOOP
  | n + 1 => fun cur cs => walkStep t (walk t follow n) follow cur cs

/-- The number of symbolic links one resolution may enter (Linux: 40). -/
def maxSymlinks : Nat := 40

/-- Resolve a path string from the root or the working directory. -/
def FS.resolve (s : FS) (follow : Bool) (path : String) : Except Errno Resolved :=
  if path = "" then .error .ENOENT
  else walk s.tree follow (maxSymlinks + 1) (if isAbs path then [] else s.cwd) (comps path)

/-- The walk of `os.MkdirAll` over the elements of its argument from directory
`cur`, `k` elements being done: a missing element is created as a directory
with the given permission bits, an existing directory is entered, a symbolic
link is entered when it leads to a directory, and anything else is an error,
returned with the number of the element it was met at.  `slash` tells
whether the argument ends with a slash.  The tree returned holds the
directories created up to the point of return. -/
def mkdirWalk (perm : Nat) (slash : Bool) :
    Nat → Tree → List String → List String → Except (Errno × Nat) Unit × Tree
  | _, t, _, [] => (.ok (), t)
  | k, t, cur, c :: rest =>
    if c = "." then mkdirWalk perm slash (k + 1) t cur rest
    else if c = ".." then mkdirWalk perm slash (k + 1) t cur.dropLast rest
    else
      match t.get (cur ++ [c]) with
      | none => mkdirWalk perm slash (k + 1) (t.set (cur ++ [c]) (.dir perm)) (cur ++ [c]) rest
      | some (.dir _) => mkdirWalk perm slash (k + 1) t (cur ++ [c]) rest
      | some (.file _) =>
        (.error (if rest = [] ∧ slash = true then .EEXIST else .ENOTDIR, k + 1), t)
      | some (.symlink _) =>
        match walk t true (maxSymlinks + 1) cur [c] with
        | .ok (q, some (.dir _)) => mkdirWalk perm slash (k + 1) t q rest
        | .ok (_, some _) =>
          (.error (if rest = [] ∧ slash = true then .EEXIST else .ENOTDIR, k + 1), t)
        | .ok (_, none) => (.error (.EEXIST, k + 1), t)
        | .error _ => (.error (.EEXIST, k + 1), t)

/-- Go `os.MkdirAll(path, perm)`. -/
def FS.MkdirAll (s : FS) (path : String) (perm : Nat) : Except Err Unit × FS :=
  if path = "" then (.error (.path "mkdir" path .ENOENT), s)
  else
    match mkdirWalk (s.masked perm) (endsWithSlash path) 0 s.tree
        (if isAbs path then [] else s.cwd) (elems path) with
    | (.ok _, t) => (.ok (), { s with tree := t })
    | (.error e, t) => (.error (.path "mkdir" (elemPrefix path e.2) e.1), { s with tree := t })

/-- Go `os.Create(path)`: open for writing, creating the file when it does not
exist and truncating it when it does; symbolic links are followed.  An
existing file must be one the process may write; a new file belongs to the
process.  The open file is returned as its inode number. -/
def FS.Create (s : FS) (path : String) : Except Err Nat × FS :=
  match s.resolve true path with
  | .error e => (.error (.path "open" path e), s)
  | .ok (_, some (.dir _)) => (.error (.path "open" path .EISDIR), s)
  | .ok (_, some (.symlink _)) => (.error (.path "open" path .ELOOP), s)
  | .ok (_, some (.file i)) =>
    if s.mayWrite i = false then (.error (.path "open" path .EACCES), s)
    else
      (.ok i,
        { s with inodes := setInode s.inodes i ⟨[], s.afterWrite (s.inodes i).mode, s.now⟩,
                 now := s.now + 1 })
  | .ok (p, none) =>
    (.ok s.next,
      { s with tree := s.tree.set p (.file s.next),
               inodes := setInode s.inodes s.next ⟨[], s.masked 0o666, s.now⟩,
               owns := fun j => if j = s.next then true else s.owns j,
               next := s.next + 1,
               now := s.now + 1 })

/-- The method `Chmod` of an open file (opened under `name`): only the owner
of the file and a privileged process may change the mode. -/
def FS.Chmod (s : FS) (ino : Nat) (name : String) (mode : Nat) : Except Err Unit × FS :=
  if s.mayChange ino = false then (.error (.path "chmod" name .EPERM), s)
  else (.ok (), { s with inodes := setInode s.inodes ino { s.inodes ino with mode := mode } })

/-- A byte source as `io.Copy` sees it: the bytes it delivers, and the error it
raises after them, if any (`none`: it ends with `io.EOF`). -/
structure Reader where
  data : Bytes
  err : Option Err
  deriving DecidableEq, Repr

/-- Go `io.Copy(out, in)` into an open file: the delivered bytes, if any, are
written at the end of the file, which stamps the modification time and, for
an unprivileged process, clears setuid and setgid; then the error of the
source, if any, is returned. -/
def FS.Copy (s : FS) (ino : Nat) (src : Reader) : Except Err Unit × FS :=
  let s1 : FS :=
    if src.data = [] then s
    else
      { s with inodes := setInode s.inodes ino
                 ⟨(s.inodes ino).content ++ src.data, s.afterWrite (s.inodes ino).mode, s.now⟩,
               now := s.now + 1 }
  match src.err with
  | some e => (.error e, s1)
  | none => (.ok (), s1)

/-- A Go `time.Time`: seconds from the Unix epoch and nanoseconds within the
second. -/
structure Time where
  sec : Int
  nsec : Nat
  deriving DecidableEq, Repr

/-- The method `IsZero`: the instant January 1, year 1, 00:00:00 UTC. -/
def Time.IsZero (t : Time) : Bool := t.sec == -62135596800 && t.nsec == 0

/-- Two's complement wrap-around to 64 bits. -/
def wrapInt64 (x : Int) : Int := (x + 2 ^ 63) % 2 ^ 64 - 2 ^ 63

/-- The method `UnixNano`: the nanoseconds from the epoch as an `int64`. -/
def Time.UnixNano (t : Time) : Int := wrapInt64 (t.sec * 1000000000 + t.nsec)

/-- Go `os.Chtimes(path, t, t)`; only the modification time is kept.  A zero
time leaves the time of the file as it is; any other is stored as its
`UnixNano`, which only the owner of the file and a privileged process may
do. -/
def FS.Chtimes (s : FS) (path : String) (t : Time) : Except Err Unit × FS :=
  match s.resolve true path with
  | .error e => (.error (.path "chtimes" path e), s)
  | .ok (_, none) => (.error (.path "chtimes" path .ENOENT), s)
  | .ok (_, some (.file i)) =>
    if t.IsZero then (.ok (), s)
    else if s.mayChange i = false then (.error (.path "chtimes" path .EPERM), s)
    else (.ok (), { s with inodes := setInode s.inodes i { s.inodes i with mtime := t.UnixNano } })
  | .ok (_, some _) => (.ok (), s)

/-- Go `os.Symlink(target, path)`: the last component of `path` is not
followed and must not exist. -/
def FS.Symlink (s : FS) (target path : String) : Except Err Unit × FS :=
  if target = "" then (.error (.link "symlink" target path .ENOENT), s)
  else
    match s.resolve false path with
    | .error e => (.error (.link "symlink" target path e), s)
    | .ok (_, some _) => (.error (.link "symlink" target path .EEXIST), s)
    | .ok (p, none) => (.ok (), { s with tree := s.tree.set p (.symlink target) })

/-- Go `os.Link(oldname, newname)`: the new name is bound to what the old name
is bound to (a final symbolic link is not followed); directories cannot be
linked and the new name must not exist. -/
def FS.Link (s : FS) (oldname newname : String) : Except Err Unit × FS :=
  match s.resolve false oldname with
  | .error e => (.error (.link "link" oldname newname e), s)
  | .ok (_, none) => (.error (.link "link" oldname newname .ENOENT), s)
  | .ok (_, some (.dir _)) => (.error (.link "link" oldname newname .EPERM), s)
  | .ok (_, some d) =>
    match s.resolve false newname with
    | .error e => (.error (.link "link" oldname newname e), s)
    | .ok (_, some _) => (.error (.link "link" oldname newname .EEXIST), s)
    | .ok (p, none) => (.ok (), { s with tree := s.tree.set p d })

/-- Go `os.Readlink(path)`. -/
def FS.Readlink (s : FS) (path : String) : Except Err String :=
  match s.resolve false path with
  | .error e => .error (.path "readlink" path e)
  | .ok (_, none) => .error (.path "readlink" path .ENOENT)
  | .ok (_, some (.symlink tg)) => .ok tg
  | .ok (_, some _) => .error (.path "readlink" path .EINVAL)

/-- An open file, as `os.Open` returns it: a regular file by its inode, or a
directory (which opens, and cannot be read). -/
inductive Handle
  | file (ino : Nat)
  | dir (name : String)
  deriving DecidableEq, Repr

/-- Go `os.Open(path)`. -/
def FS.Open (s : FS) (path : String) : Except Err Handle :=
  match s.resolve true path with
  | .error e => .error (.path "open" path e)
  | .ok (_, none) => .error (.path "open" path .ENOENT)
  | .ok (_, some (.file i)) => .ok (.file i)
  | .ok (_, some (.dir _)) => .ok (.dir path)
  | .ok (_, some (.symlink _)) => .error (.path "open" path .ELOOP)

/-- What reading an open file from its start delivers at this moment. -/
def FS.read (s : FS) : Handle → Reader
  | .file i => ⟨(s.inodes i).content, none⟩
  | .dir name => ⟨[], some (.path "read" name .EISDIR)⟩

/-- The fields of `tar.Header` the program reads.  `Typeflag` is a byte. -/
structure Header where
  Name : String
  Typeflag : Nat
  Linkname : String
  Mode : Int
  ModTime : Time
  deriving DecidableEq, Repr

/-- What one call of `tarReader.Next` returns: `io.EOF`, a decoding error, or
the header of the next entry, with the state the reader is in then. -/
inductive NextResult (σ : Type)
  | eof
  | fault (err : Err)
  | entry (header : Header) (st : σ)

/-- A tar reader over states `σ`.  `next st s` is what `Next` returns when the
reader is in state `st` and the filesystem is `s`; `read st s` is what reading
the payload of the current entry delivers in that situation. -/
structure TarStream (σ : Type) where
  next : σ → FS → NextResult σ
  read : σ → FS → Reader

def TypeReg : Nat := 48
def TypeRegA : Nat := 0
def TypeLink : Nat := 49
def TypeSymlink : Nat := 50
def TypeChar : Nat := 51
def TypeBlock : Nat := 52
def TypeDir : Nat := 53
def TypeFifo : Nat := 54

/-- The bits of `header.FileInfo().Mode()` that `Chmod` passes to the kernel:
permission, setuid, setgid and sticky bits of the header mode. -/
def Header.chmodBits (h : Header) : Nat := (h.Mode % 4096).toNat

/-! ## The outside world -/

/-- A received HTTP response: status code and body stream. -/
structure HttpResponse where
  StatusCode : Int
  Body : Reader

/-- The parts of the environment and of the Go standard library the program
relies on.  `roundTrip k url` is the outcome of the HTTP GET sent as the
exchange number `k` of the run; `urlError` is the error of parsing a URL;
`unmarshalDownloadURL` is `json.Unmarshal` into `GenerateDownloadURLRespModel`
(`ok none`: the document sets no `download_url`); `stringOfBytes` is the
conversion of a byte slice to a string.  The tar reader is a state machine
over code numbers of its internal state (position, buffered bytes): `tarNext`
and `tarRead` are `Next` and the payload read, given what the underlying file
delivers at that moment; `tarNewReader` is the state of a fresh reader and
`gzipNewReader` that of a reader behind a gzip reader, or the error of the
gzip header. -/
structure Env where
  getenv : String → String
  goos : String
  urlError : String → Option Err
  roundTrip : Nat → String → Except Err HttpResponse
  unmarshalDownloadURL : Bytes → Except Err (Option String)
  stringOfBytes : Bytes → String
  tarNewReader : Nat
  gzipNewReader : Reader → Except Err Nat
  tarNext : Nat → Reader → NextResult Nat
  tarRead : Nat → Reader → Reader

/-- The calls whose number and order the retry policy is about. -/
inductive Call
  | getCacheDownloadURL (cacheAPIURL : String)
  | downloadCacheArchive (url : String)
  | untarFiles (compressed : Bool)
  deriving DecidableEq, Repr

/-- The state a run threads through: the filesystem, the URLs of the HTTP
requests sent so far, and the record of the calls made so far (each of the
three recorded functions appends its call on entry). -/
structure World where
  fs : FS
  requests : List String
  calls : List Call

/-- Go `ioutil.ReadAll`: the bytes read, and the error of the stream if any. -/
def ReadAll (r : Reader) : Except Err Bytes :=
  match r.err with
  | some e => .error e
  | none => .ok r.data

/-- Go `client.Do` for a GET request: the request is sent and the exchange
yields a response or a transport error. -/
def clientDo (env : Env) (url : String) (w : World) : Except Err HttpResponse × World :=
  (env.roundTrip w.requests.length url, { w with requests := w.requests ++ [url] })

/-- Go `http.Get`: nothing is sent for an unparsable URL. -/
def httpGet (env : Env) (url : String) (w : World) : Except Err HttpResponse × World :=
  match env.urlError url with
  | some e => (.error e, w)
  | none => clientDo env url w

/-- The tar reader of the program: it reads the open archive file as the
filesystem has it at each call. -/
def fileStream (env : Env) (archiveFile : Handle) : TarStream Nat :=
  { next := fun st s => env.tarNext st (s.read archiveFile),
    read := fun st s => env.tarRead st (s.read archiveFile) }

/-! ## The program -/

/-- The staging path, written as a literal in `downloadCacheArchive` and in
`untarFiles`. -/
def stagingPath : String := "/tmp/cache-archive.tar"

structure StepParamsModel where
  CacheAPIURL : String
  IsDebugMode : Bool

def CreateStepParamsFromEnvs (env : Env) : Except Err StepParamsModel :=
  .ok { CacheAPIURL := env.getenv "cache_api_url",
        IsDebugMode := env.getenv "is_debug_mode" == "true" }

def downloadCacheArchive (env : Env) (url : String) (w0 : World) : Except Err Unit × World :=
  let w : World := { w0 with calls := w0.calls ++ [Call.downloadCacheArchive url] }
  match httpGet env url w with
  | (.error err, w1) => (.error err, w1)
  | (.ok resp, w1) =>
    if resp.StatusCode ≠ 200 then
      match ReadAll resp.Body with
      | .error err => (.error err, w1)
      | .ok responseBytes =>
        (.error (.text ("Failed to download archive - non success response code: "
            ++ toString resp.StatusCode ++ ", body: " ++ env.stringOfBytes responseBytes)), w1)
    else
      match w1.fs.Create stagingPath with
      | (.error err, fs1) =>
        (.error (.text ("Failed to open the local cache file for write: " ++ err.Error)),
          { w1 with fs := fs1 })
      | (.ok out, fs1) =>
        match fs1.Copy out resp.Body with
        | (.error err, fs2) => (.error err, { w1 with fs := fs2 })
        | (.ok _, fs2) => (.ok (), { w1 with fs := fs2 })

/-- The function `writeNewFile`.  The reader `src` it copies from is the tar
reader standing at the entry; what it delivers is asked for when the copy
starts. -/
def writeNewFile (env : Env) (header : Header) (src : FS → Reader) (s : FS) :
    Except Err Unit × FS :=
  let fpath := header.Name
  let fm := header.chmodBits
  match s.MkdirAll (Dir fpath) 0o755 with
  | (.error err, s1) => (.error err, s1)
  | (.ok _, s1) =>
    match s1.Create fpath with
    | (.error err, s2) => (.error err, s2)
    | (.ok out, s2) =>
      match s2.Chmod out fpath fm with
      | (.error err, s3) =>
        if env.goos ≠ "windows" then (.error err, s3)
        else
          match s3.Copy out (src s3) with
          | (.error err, s4) => (.error err, s4)
          | (.ok _, s4) => s4.Chtimes fpath header.ModTime
      | (.ok _, s3) =>
        match s3.Copy out (src s3) with
        | (.error err, s4) => (.error err, s4)
        | (.ok _, s4) => s4.Chtimes fpath header.ModTime

def writeNewSymbolicLink (header : Header) (s : FS) : Except Err Unit × FS :=
  match s.MkdirAll (Dir header.Name) 0o755 with
  | (.error err, s1) => (.error err, s1)
  | (.ok _, s1) => s1.Symlink header.Linkname header.Name

def writeNewHardLink (header : Header) (s : FS) : Except Err Unit × FS :=
  match s.MkdirAll (Dir header.Name) 0o755 with
  | (.error err, s1) => (.error err, s1)
  | (.ok _, s1) => s1.Link (Join header.Name header.Linkname) header.Name

/-- The message of `fmt.Errorf("%s: unknown type flag: %c", name, flag)`. -/
def unknownTypeFlag (name : String) (flag : Nat) : Err :=
  .text (name ++ ": unknown type flag: " ++ String.singleton (Char.ofNat flag))

/-- The function `untarFile`; `src` is the tar reader it is given. -/
def untarFile (env : Env) (header : Header) (src : FS → Reader) (s : FS) :
    Except Err Unit × FS :=
  if header.Typeflag = TypeDir then s.MkdirAll header.Name 0o755
  else if header.Typeflag = TypeReg ∨ header.Typeflag = TypeRegA ∨ header.Typeflag = TypeChar
      ∨ header.Typeflag = TypeBlock ∨ header.Typeflag = TypeFifo then
    writeNewFile env header src s
  else if header.Typeflag = TypeSymlink then writeNewSymbolicLink header s
  else if header.Typeflag = TypeLink then writeNewHardLink header s
  else (.error (unknownTypeFlag header.Name header.Typeflag), s)

/-- The loop of `untarFiles` over a tar reader in state `st`, for at most
`fuel` calls of `Next` (`none`: more calls are needed). -/
def untarLoop {σ : Type} (env : Env) (tr : TarStream σ) :
    Nat → σ → FS → Option (Except Err Unit × FS)
  | 0, _, _ => none
  | fuel + 1, st, s =>
    match tr.next st s with
    | .eof => some (.ok (), s)
    | .fault err => some (.error err, s)
    | .entry header st1 =>
      match untarFile env header (tr.read st1) s with
      | (.error err, s1) => some (.error err, s1)
      | (.ok _, s1) => untarLoop env tr fuel st1 s1

/-- The function `untarFiles`, with the bound on the iterations of its loop. -/
def untarFiles (env : Env) (fuel : Nat) (compressed : Bool) (w0 : World) :
    Option (Except Err Unit × World) :=
  let w : World := { w0 with calls := w0.calls ++ [Call.untarFiles compressed] }
  match w.fs.Open stagingPath with
  | .error err => some (.error err, w)
  | .ok archiveFile =>
    if compressed then
      match env.gzipNewReader (w.fs.read archiveFile) with
      | .error err => some (.error err, w)
      | .ok gzr =>
        match untarLoop env (fileStream env archiveFile) fuel gzr w.fs with
        | none => none
        | some (r, s1) => some (r, { w with fs := s1 })
    else
      match untarLoop env (fileStream env archiveFile) fuel env.tarNewReader w.fs with
      | none => none
      | some (r, s1) => some (r, { w with fs := s1 })

def getCacheDownloadURL (env : Env) (cacheAPIURL : String) (w0 : World) :
    Except Err String × World :=
  let w : World := { w0 with calls := w0.calls ++ [Call.getCacheDownloadURL cacheAPIURL] }
  match env.urlError cacheAPIURL with
  | some err => (.error (.text ("Failed to create request: " ++ err.Error)), w)
  | none =>
    match clientDo env cacheAPIURL w with
    | (.error err, w1) => (.error (.text ("Failed to send request: " ++ err.Error)), w1)
    | (.ok resp, w1) =>
      match ReadAll resp.Body with
      | .error _ =>
        (.error (.text ("Request sent, but failed to read response body (http-code:"
            ++ toString resp.StatusCode ++ "): " ++ env.stringOfBytes resp.Body.data)), w1)
      | .ok body =>
        if resp.StatusCode < 200 ∨ resp.StatusCode > 202 then
          (.error (.text ("Build cache not found. Probably cache not initialised yet "
            ++ "(first cache push initialises the cache), nothing to worry about ;)")), w1)
        else
          match env.unmarshalDownloadURL body with
          | .error _ =>
            (.error (.text ("Request sent, but failed to parse JSON response (http-code:"
                ++ toString resp.StatusCode ++ "): " ++ env.stringOfBytes body)), w1)
          | .ok field =>
            let DownloadURL := field.getD ""
            if DownloadURL = "" then
              (.error (.text ("Request sent, but Download URL is empty (http-code:"
                  ++ toString resp.StatusCode ++ "): " ++ env.stringOfBytes body)), w1)
            else (.ok DownloadURL, w1)

def downloadFileWithRetry (env : Env) (cacheAPIURL : String) (localPath : String) (w : World) :
    Except Err Unit × World :=
  let _ := localPath
  match getCacheDownloadURL env cacheAPIURL w with
  | (.error err, w1) => (.error err, w1)
  | (.ok downloadURL, w1) =>
    match downloadCacheArchive env downloadURL w1 with
    | (.error _, w2) => downloadCacheArchive env downloadURL w2
    | (.ok _, w2) => (.ok (), w2)

/-- How a run of `main` ends: it returns, or `log.Fatalf` ends the process. -/
inductive Exit
  | returned
  | fatal (msg : String)
  deriving DecidableEq, Repr

/-- The restoration stage of `main` (from "Uncompressing archive" on). -/
def restoreStage (env : Env) (fuel : Nat) (w : World) : Option (Exit × World) :=
  match untarFiles env fuel false w with
  | none => none
  | some (.error _, w1) =>
    match untarFiles env fuel true w1 with
    | none => none
    | some (.error err, w2) =>
      some (.fatal ("Failed to uncompress archive, error: " ++ err.Error), w2)
    | some (.ok _, w2) => some (.returned, w2)
  | some (.ok _, w1) => some (.returned, w1)

def main (env : Env) (fuel : Nat) (w : World) : Option (Exit × World) :=
  match CreateStepParamsFromEnvs env with
  | .error err => some (.fatal (" [!] Input error : " ++ err.Error), w)
  | .ok stepParams =>
    if stepParams.CacheAPIURL = "" then some (.returned, w)
    else
      let cacheArchiveFilePath := "/tmp/cache-archive.tar"
      match downloadFileWithRetry env stepParams.CacheAPIURL cacheArchiveFilePath w with
      | (.error err, w1) => some (.fatal (" [!] Unable to download cache: " ++ err.Error), w1)
      | (.ok _, w1) => restoreStage env fuel w1

/-! ## Vocabulary of the statements and proofs -/

/-- Tree `t2` extends tree `t`: every binding of `t` is a binding of `t2`. -/
def Ext (t t2 : Tree) : Prop := ∀ q d, t q = some d → t2 q = some d

/-- The side condition under which a resolution result carries over to an
extension: a location found missing may have been filled by anything but a
symbolic link that the walk would enter. -/
def Carries (t2 : Tree) (follow : Bool) (res : Resolved) : Prop :=
  res.2 = none → follow = false ∨ ∀ tg, t2.get res.1 ≠ some (.symlink tg)

/-- An archive entry taken by itself: its header and what reading its payload
delivers. -/
structure Entry where
  header : Header
  payload : Reader
  deriving DecidableEq, Repr

/-- The tar reader over a given entry sequence: `Next` hands out the entries
in order, then `io.EOF` or the decoding error `fault`.  Its state is the
entries still to come and the payload of the current one. -/
def listStream (fault : Option Err) : TarStream (List Entry × Reader) :=
  { next := fun st _ =>
      match st.1 with
      | [] =>
        match fault with
        | none => .eof
        | some err => .fault err
      | e :: rest => .entry e.header (rest, e.payload),
    read := fun st _ => st.2 }

/-- The reader state and filesystem after `k` iterations of the loop in each of
which `Next` handed out an entry and the entry was applied with success
(`none` when that is not how the first `k` iterations go). -/
def runEntries {σ : Type} (env : Env) (tr : TarStream σ) : Nat → σ → FS → Option (σ × FS)
  | 0, st, s => some (st, s)
  | k + 1, st, s =>
    match tr.next st s with
    | .entry header st1 =>
      match untarFile env header (tr.read st1) s with
      | (.ok _, s1) => runEntries env tr k st1 s1
      | (.error _, _) => none
    | _ => none

/-- The entry is a directory or a regular file. -/
def Entry.isDirOrReg (e : Entry) : Prop :=
  e.header.Typeflag = TypeDir ∨ e.header.Typeflag = TypeReg ∨ e.header.Typeflag = TypeRegA

/-- A filesystem with the directories `/tmp` and `/w`, the latter being the
working directory, for an unprivileged process with umask 022. -/
def sampleFS : FS :=
  { tree := fun p =>
      if p = ["tmp"] then some (.dir 0o755)
      else if p = ["w"] then some (.dir 0o755)
      else none,
    inodes := fun _ => ⟨[], 0, 0⟩,
    owns := fun _ => true,
    next := 0,
    cwd := ["w"],
    now := 1700000000000000000,
    privileged := false,
    umask := 0o022 }

/-- Header of the directory `d/`. -/
def sampleDir : Header := ⟨"d/", TypeDir, "", 0o755, ⟨5, 0⟩⟩

/-- Header of the regular file `d/f.txt`, mode 0644, modified at second 7. -/
def sampleFile : Header := ⟨"d/f.txt", TypeReg, "", 0o644, ⟨7, 0⟩⟩

/-- Header of a regular file whose modification time is the zero time. -/
def sampleZeroTime : Header := ⟨"d/z", TypeReg, "", 0o644, ⟨-62135596800, 0⟩⟩

/-- Header of the symbolic link `d/s` to `f.txt`. -/
def sampleSymlink : Header := ⟨"d/s", TypeSymlink, "f.txt", 0o777, ⟨7, 0⟩⟩

/-- Header of the hard link `d/l` with link name `../f.txt`. -/
def sampleHardLink : Header := ⟨"d/l", TypeLink, "../f.txt", 0o644, ⟨7, 0⟩⟩

/-- Header with the reserved type flag `7` (contiguous file). -/
def sampleCont : Header := ⟨"d/c", 55, "", 0o644, ⟨7, 0⟩⟩

/-- The payload `hi`, read to its end. -/
def sampleHi : Reader := ⟨[104, 105], none⟩

/-- An environment: exchange 0 answers the API request with a document naming
`http://x/a.tar`, exchange 1 fails in transport, exchange 2 serves the archive
bytes `[7]`.  The tar reader decodes a file holding `[7]` to the directory
`d/` and the file `d/f.txt` with payload `hi`, a file holding `[8]` to the
same with an entry of unknown type between them, a file holding `[9]` to the
directory `d/` and the file `d/z` with payload `hi`, whose modification time
is the zero time, and fails on any other file; there is no gzip stream. -/
def sampleEnv : Env :=
  { getenv := fun k => if k = "cache_api_url" then "http://api/cache" else "",
    goos := "linux",
    urlError := fun _ => none,
    roundTrip := fun k _ =>
      if k = 0 then .ok ⟨200, ⟨[1], none⟩⟩
      else if k = 1 then .error (.text "connection reset")
      else .ok ⟨200, ⟨[7], none⟩⟩,
    unmarshalDownloadURL := fun b =>
      if b = [1] then .ok (some "http://x/a.tar") else .error (.text "invalid character"),
    stringOfBytes := fun b => String.mk (b.map Char.ofNat),
    tarNewReader := 0,
    gzipNewReader := fun _ => .error (.text "gzip: invalid header"),
    tarNext := fun st r =>
      if r.data = [7] ∧ r.err = none then
        if st = 0 then .entry sampleDir 1
        else if st = 1 then .entry sampleFile 2
        else .eof
      else if r.data = [8] ∧ r.err = none then
        if st = 0 then .entry sampleDir 1
        else if st = 1 then .entry sampleCont 3
        else if st = 3 then .entry sampleFile 2
        else .eof
      else if r.data = [9] ∧ r.err = none then
        if st = 0 then .entry sampleDir 1
        else if st = 1 then .entry sampleZeroTime 2
        else .eof
      else .fault (.text "archive/tar: invalid tar header"),
    tarRead := fun st r =>
      if (r.data = [7] ∨ r.data = [8] ∨ r.data = [9]) ∧ st = 2 then sampleHi
      else ⟨[], some (.text "unexpected EOF")⟩ }

/-- The world at the start of a run. -/
def sampleWorld : World := { fs := sampleFS, requests := [], calls := [] }

/-- The sample filesystem after the directory `d/` and the file `d/f.txt` have
been restored. -/
def sampleRestored : FS :=
  (untarFile sampleEnv sampleFile (fun _ => sampleHi)
    (untarFile sampleEnv sampleDir (fun _ => ⟨[], none⟩) sampleFS).2).2

/-- A world in which the staging file holds the bytes `[8]`. -/
def sampleStaged : World :=
  { fs := { sampleFS with
      tree := fun p =>
        if p = ["tmp", "cache-archive.tar"] then some (.file 0) else sampleFS.tree p,
      inodes := fun _ => ⟨[8], 0o644, 0⟩,
      next := 1 },
    requests := [],
    calls := [] }

/-! ## Monotonicity of path resolution -/

theorem Ext.refl (t : Tree) : Ext t t := fun _ _ h => h

theorem Ext.trans {a b c : Tree} (h1 : Ext a b) (h2 : Ext b c) : Ext a c :=
  fun q d h => h2 q d (h1 q d h)

theorem Ext.get {t t2 : Tree} (h : Ext t t2) {q : List String} {d : Dirent}
    (hq : t.get q = some d) : t2.get q = some d := by
  unfold Tree.get at *
  split
  · next hnil => simpa [hnil] using hq
  · next hne => simp only [hne, if_false] at hq; exact h q d hq

theorem Tree.get_snoc (t : Tree) (cur : List String) (c : String) :
    t.get (cur ++ [c]) = t (cur ++ [c]) := by
  simp [Tree.get]

theorem Ext.set_of_none {t : Tree} {p : List String} (d : Dirent) (h : t p = none) :
    Ext t (t.set p d) := by
  intro q e hq
  unfold Tree.set
  split
  · next heq => subst heq; rw [h] at hq; cases hq
  · exact hq

theorem walkStep_mono {t t2 : Tree} (hext : Ext t t2) (follow : Bool)
    (ex ex2 : List String → List String → Except Errno Resolved)
    (hex : ∀ cur cs res, ex cur cs = .ok res → Carries t2 follow res →
      ex2 cur cs = .ok (res.1, t2.get res.1))
    (cs : List String) : ∀ (cur : List String) (res : Resolved),
      walkStep t ex follow cur cs = .ok res → Carries t2 follow res →
      walkStep t2 ex2 follow cur cs = .ok (res.1, t2.get res.1) := by
  induction cs with
  | nil =>
    intro cur res h _
    simp only [walkStep] at h ⊢
    cases h
    rfl
  | cons c rest ih =>
    intro cur res h hc
    simp only [walkStep] at h ⊢
    by_cases h1 : c = "."
    · simp only [h1, if_true] at h ⊢
      exact ih cur res h hc
    · simp only [h1, if_false] at h ⊢
      by_cases h2 : c = ".."
      · simp only [h2, if_true] at h ⊢
        exact ih _ res h hc
      · simp only [h2, if_false] at h ⊢
        cases hg : t.get (cur ++ [c]) with
        | none =>
          rw [hg] at h
          simp only at h
          by_cases hr : rest = []
          · subst hr
            simp only [if_true] at h
            cases h
            cases hg2 : t2.get (cur ++ [c]) with
            | none => simp
            | some d =>
              cases d with
              | dir m => simp [walkStep, hg2]
              | file i => simp
              | symlink tg =>
                simp only
                rcases hc rfl with hf | hns
                · simp [hf]
                · exact absurd hg2 (hns tg)
          · simp [hr] at h
        | some d =>
          rw [hg] at h
          rw [hext.get hg]
          cases d with
          | dir m => exact ih _ res h hc
          | file i =>
            simp only at h ⊢
            by_cases hr : rest = []
            · simp only [hr, if_true] at h ⊢
              cases h
              simp [hext.get hg]
            · simp [hr] at h
          | symlink tg =>
            simp only at h ⊢
            by_cases hr : rest = [] ∧ follow = false
            · simp only [hr, and_self, if_true] at h ⊢
              cases h
              simp [hext.get hg]
            · simp only [hr, if_false] at h ⊢
              by_cases ht : tg = ""
              · simp [ht] at h
              · simp only [ht, if_false] at h ⊢
                exact hex _ _ res h hc

theorem walk_mono {t t2 : Tree} (hext : Ext t t2) (follow : Bool) (n : Nat) :
    ∀ (cur cs : List String) (res : Resolved),
      walk t follow n cur cs = .ok res → Carries t2 follow res →
      walk t2 follow n cur cs = .ok (res.1, t2.get res.1) := by
  induction n with
  | zero => intro cur cs res h; simp [walk] at h
  | succ n ih =>
    intro cur cs res h hc
    simp only [walk] at h ⊢
    exact walkStep_mono hext follow _ _ ih cs cur res h hc

theorem walkStep_get {t : Tree} (follow : Bool)
    (ex : List String → List String → Except Errno Resolved)
    (hex : ∀ cur cs res, ex cur cs = .ok res → res.2 = t.get res.1)
    (cs : List String) : ∀ (cur : List String) (res : Resolved),
      walkStep t ex follow cur cs = .ok res → res.2 = t.get res.1 := by
  induction cs with
  | nil =>
    intro cur res h
    simp only [walkStep] at h
    cases h
    rfl
  | cons c rest ih =>
    intro cur res h
    simp only [walkStep] at h
    by_cases h1 : c = "."
    · simp only [h1, if_true] at h
      exact ih cur res h
    · simp only [h1, if_false] at h
      by_cases h2 : c = ".."
      · simp only [h2, if_true] at h
        exact ih _ res h
      · simp only [h2, if_false] at h
        cases hg : t.get (cur ++ [c]) with
        | none =>
          rw [hg] at h
          simp only at h
          by_cases hr : rest = []
          · simp only [hr, if_true] at h
            cases h
            exact hg.symm
          · simp [hr] at h
        | some d =>
          rw [hg] at h
          cases d with
          | dir m => exact ih _ res h
          | file i =>
            simp only at h
            by_cases hr : rest = []
            · simp only [hr, if_true] at h
              cases h
              exact hg.symm
            · simp [hr] at h
          | symlink tg =>
            simp only at h
            by_cases hr : rest = [] ∧ follow = false
            · simp only [hr, and_self, if_true] at h
              cases h
              exact hg.symm
            · simp only [hr, if_false] at h
              by_cases ht : tg = ""
              · simp [ht] at h
              · simp only [ht, if_false] at h
                exact hex _ _ res h

/-- What a walk reports at the location it reaches is what the tree holds
there. -/
theorem walk_get {t : Tree} {follow : Bool} (n : Nat) :
    ∀ (cur cs : List String) (res : Resolved),
      walk t follow n cur cs = .ok res → res.2 = t.get res.1 := by
  induction n with
  | zero => intro cur cs res h; simp [walk] at h
  | succ n ih =>
    intro cur cs res h
    simp only [walk] at h
    exact walkStep_get follow _ ih cs cur res h

theorem walk_mono_some {t t2 : Tree} (hext : Ext t t2) (follow : Bool) (n : Nat)
    {cur cs p : List String} {d : Dirent}
    (h : walk t follow n cur cs = .ok (p, some d)) :
    walk t2 follow n cur cs = .ok (p, some d) := by
  have h2 := walk_mono hext follow n cur cs (p, some d) h (fun hn => by cases hn)
  have hg : t.get p = some d := (walk_get n cur cs (p, some d) h).symm
  rw [h2, hext.get hg]

/-! ## `MkdirAll` only adds, and is stable once it has run -/

theorem mkdirWalk_ext (perm : Nat) (slash : Bool) (cs : List String) :
    ∀ (k : Nat) (t : Tree) (cur : List String),
      Ext t (mkdirWalk perm slash k t cur cs).2 := by
  induction cs with
  | nil => intro k t cur; simp only [mkdirWalk]; exact Ext.refl t
  | cons c rest ih =>
    intro k t cur
    simp only [mkdirWalk]
    by_cases h1 : c = "."
    · simp only [h1, if_true]; exact ih _ t cur
    · simp only [h1, if_false]
      by_cases h2 : c = ".."
      · simp only [h2, if_true]; exact ih _ t _
      · simp only [h2, if_false]
        cases hg : t.get (cur ++ [c]) with
        | none =>
          simp only
          rw [Tree.get_snoc] at hg
          exact (Ext.set_of_none _ hg).trans (ih _ _ _)
        | some d =>
          cases d with
          | dir m => exact ih _ t _
          | file i => exact Ext.refl t
          | symlink tg =>
            simp only
            split
            · exact ih _ t _
            · exact Ext.refl t
            · exact Ext.refl t
            · exact Ext.refl t

theorem mkdirWalk_replay (perm : Nat) (slash : Bool) (cs : List String) :
    ∀ (k : Nat) (t : Tree) (cur : List String) (r : Except (Errno × Nat) Unit) (t1 t2 : Tree),
      mkdirWalk perm slash k t cur cs = (r, t1) → Ext t1 t2 →
      ((∃ e, r = .error e) → t2 = t1) →
      mkdirWalk perm slash k t2 cur cs = (r, t2) := by
  induction cs with
  | nil =>
    intro k t cur r t1 t2 h _ _
    simp only [mkdirWalk] at h ⊢
    cases h; rfl
  | cons c rest ih =>
    intro k t cur r t1 t2 h hext herr
    have hext0 : Ext t t2 := by
      have := mkdirWalk_ext perm slash (c :: rest) k t cur
      rw [h] at this
      exact this.trans hext
    simp only [mkdirWalk] at h ⊢
    by_cases h1 : c = "."
    · simp only [h1, if_true] at h ⊢; exact ih _ t cur r t1 t2 h hext herr
    · simp only [h1, if_false] at h ⊢
      by_cases h2 : c = ".."
      · simp only [h2, if_true] at h ⊢; exact ih _ t _ r t1 t2 h hext herr
      · simp only [h2, if_false] at h ⊢
        cases hg : t.get (cur ++ [c]) with
        | none =>
          rw [hg] at h
          simp only at h
          have hnew : t2.get (cur ++ [c]) = some (.dir perm) := by
            have he := mkdirWalk_ext perm slash rest (k + 1) (t.set (cur ++ [c]) (.dir perm)) (cur ++ [c])
            rw [h] at he
            rw [Tree.get_snoc]
            exact hext _ _ (he _ _ (by simp [Tree.set]))
          rw [hnew]
          exact ih _ _ _ r t1 t2 h hext herr
        | some d =>
          rw [hg] at h
          rw [hext0.get hg]
          cases d with
          | dir m => exact ih _ t _ r t1 t2 h hext herr
          | file i =>
            simp only at h ⊢
            cases h
            rw [herr ⟨_, rfl⟩]
          | symlink tg =>
            simp only at h ⊢
            cases hw : walk t true (maxSymlinks + 1) cur [c] with
            | error e =>
              rw [hw] at h
              simp only at h
              cases h
              have := herr ⟨_, rfl⟩
              subst this
              rw [hw]
            | ok res =>
              obtain ⟨q, o⟩ := res
              rw [hw] at h
              cases o with
              | none =>
                simp only at h
                cases h
                have := herr ⟨_, rfl⟩
                subst this
                rw [hw]
              | some d2 =>
                cases d2 with
                | dir m =>
                  simp only at h
                  rw [walk_mono_some hext0 true _ hw]
                  exact ih _ t q r t1 t2 h hext herr
                | file i =>
                  simp only at h
                  cases h
                  have := herr ⟨_, rfl⟩
                  subst this
                  rw [hw]
                | symlink tg2 =>
                  simp only at h
                  cases h
                  have := herr ⟨_, rfl⟩
                  subst this
                  rw [hw]

/-! ## Facts about the filesystem calls -/

theorem setInode_same (f : Nat → Inode) (i : Nat) (v : Inode) : setInode f i v i = v := by
  simp [setInode]

theorem Tree.get_none {t : Tree} {p : List String} (h : t.get p = none) : t p = none := by
  unfold Tree.get at h
  split at h
  · cases h
  · exact h

theorem Tree.get_set_self (t : Tree) {p : List String} (d : Dirent) (hp : p ≠ []) :
    (t.set p d).get p = some d := by
  simp [Tree.get, Tree.set, hp]

/-- Resolution reads the name space and the working directory only. -/
theorem FS.resolve_congr {s s2 : FS} (ht : s2.tree = s.tree) (hc : s2.cwd = s.cwd)
    (follow : Bool) (path : String) : s2.resolve follow path = s.resolve follow path := by
  simp only [FS.resolve, ht, hc]

/-- A location a resolution found missing is a free, non-root slot. -/
theorem FS.resolve_none_free {s : FS} {follow : Bool} {path : String} {p : List String}
    (h : s.resolve follow path = .ok (p, none)) : s.tree p = none ∧ p ≠ [] := by
  unfold FS.resolve at h
  by_cases he : path = ""
  · simp [he] at h
  · simp only [he, if_false] at h
    have hg := walk_get _ _ _ _ h
    simp only at hg
    constructor
    · exact Tree.get_none hg.symm
    · intro hnil
      rw [hnil] at hg
      simp [Tree.get] at hg

/-- After a missing location has been bound, the same path resolves to the new
entry (unless the entry is a symbolic link that the resolution would enter). -/
theorem FS.resolve_after_bind {s u : FS} {follow : Bool} {path : String} {p : List String}
    (d : Dirent) (h : s.resolve follow path = .ok (p, none))
    (ht : u.tree = s.tree.set p d) (hc : u.cwd = s.cwd)
    (hd : follow = false ∨ ∀ tg, d ≠ .symlink tg) :
    u.resolve follow path = .ok (p, some d) := by
  obtain ⟨hfree, hne⟩ := FS.resolve_none_free h
  unfold FS.resolve at h ⊢
  by_cases he : path = ""
  · simp [he] at h
  · simp only [he, if_false] at h ⊢
    rw [hc, ht]
    have hget : (s.tree.set p d).get p = some d := Tree.get_set_self _ d hne
    have := walk_mono (Ext.set_of_none d hfree) follow _ _ _ (p, none) h (by
      intro _
      rcases hd with hf | hns
      · exact Or.inl hf
      · right
        intro tg
        simp only
        rw [hget]
        intro hcon
        exact hns tg (Option.some.inj hcon))
    simpa [hget] using this

theorem FS.MkdirAll_fields (s : FS) (path : String) (perm : Nat) :
    (s.MkdirAll path perm).2.inodes = s.inodes ∧ (s.MkdirAll path perm).2.next = s.next ∧
    (s.MkdirAll path perm).2.cwd = s.cwd ∧ (s.MkdirAll path perm).2.now = s.now ∧
    (s.MkdirAll path perm).2.privileged = s.privileged ∧
    (s.MkdirAll path perm).2.umask = s.umask ∧
    (s.MkdirAll path perm).2.owns = s.owns ∧
    Ext s.tree (s.MkdirAll path perm).2.tree := by
  unfold FS.MkdirAll
  by_cases he : path = ""
  · simp [he, Ext.refl]
  · simp only [he, if_false]
    have hx := mkdirWalk_ext (s.masked perm) (endsWithSlash path) (elems path) 0 s.tree
      (if isAbs path then [] else s.cwd)
    rcases hm : mkdirWalk (s.masked perm) (endsWithSlash path) 0 s.tree
      (if isAbs path then [] else s.cwd) (elems path) with ⟨r, t⟩
    rw [hm] at hx
    cases r <;> exact ⟨rfl, rfl, rfl, rfl, rfl, rfl, rfl, hx⟩

/-- Running `MkdirAll` again, on any state that extends the tree it left (the
very tree it left, when it failed), gives the same result and changes
nothing. -/
theorem FS.MkdirAll_replay {s s1 T : FS} {path : String} {perm : Nat} {r : Except Err Unit}
    (h : s.MkdirAll path perm = (r, s1)) (hc : T.cwd = s.cwd) (hu : T.umask = s.umask)
    (hext : Ext s1.tree T.tree) (herr : (∃ e, r = .error e) → T.tree = s1.tree) :
    T.MkdirAll path perm = (r, T) := by
  unfold FS.MkdirAll at h ⊢
  by_cases he : path = ""
  · simp only [he, if_true] at h ⊢
    cases h; rfl
  · simp only [he, if_false] at h ⊢
    have hmask : T.masked perm = s.masked perm := by simp only [FS.masked, hu]
    rcases hm : mkdirWalk (s.masked perm) (endsWithSlash path) 0 s.tree
      (if isAbs path then [] else s.cwd) (elems path) with ⟨r0, t⟩
    rw [hm] at h
    cases r0 with
    | ok u =>
      simp only at h
      cases h
      rw [hc, hmask, mkdirWalk_replay _ _ _ _ _ _ _ _ T.tree hm hext
        (by rintro ⟨e, he⟩; cases he)]
      simp only
      rw [← hc]
    | error e =>
      simp only at h
      cases h
      have := herr ⟨_, rfl⟩
      rw [hc, hmask, mkdirWalk_replay _ _ _ _ _ _ _ _ T.tree hm hext (fun _ => this)]
      simp only
      rw [← hc]

/-! ## What `Create` and `writeNewFile` do, case by case -/

/-- A successful `Create`: the path names the returned file, which is empty and
stamped; names are only added; either the file existed (and could be written)
or it is the new inode. -/
theorem FS.Create_ok {s s2 : FS} {path : String} {i : Nat}
    (h : s.Create path = (.ok i, s2)) :
    (∃ p, s2.resolve true path = .ok (p, some (.file i))) ∧
    (s2.inodes i).content = [] ∧ (s2.inodes i).mtime = s.now ∧
    s2.cwd = s.cwd ∧ s2.privileged = s.privileged ∧ s2.umask = s.umask ∧
    s2.now = s.now + 1 ∧ Ext s.tree s2.tree ∧
    (∀ j, j ≠ i → s2.inodes j = s.inodes j) ∧
    (∀ j, s.owns j = true → s2.owns j = true) ∧
    (((∃ p, s.resolve true path = .ok (p, some (.file i))) ∧ s2.tree = s.tree ∧
        s2.next = s.next ∧ s2.owns = s.owns ∧ s.mayWrite i = true) ∨
     (∃ p, s.resolve true path = .ok (p, none) ∧ i = s.next ∧
        s2.tree = s.tree.set p (.file s.next) ∧ s2.next = s.next + 1 ∧
        s2.owns i = true)) := by
  unfold FS.Create at h
  cases hr : s.resolve true path with
  | error en => rw [hr] at h; cases h
  | ok res =>
    obtain ⟨p, o⟩ := res
    rw [hr] at h
    cases o with
    | none =>
      simp only at h
      obtain ⟨h1, h2⟩ := Prod.mk.inj h
      cases h1
      subst h2
      obtain ⟨hfree, _⟩ := FS.resolve_none_free hr
      refine ⟨⟨p, ?_⟩, by simp only [setInode_same], by simp only [setInode_same], rfl, rfl,
        rfl, rfl, Ext.set_of_none _ hfree, ?_, ?_,
        Or.inr ⟨p, rfl, rfl, rfl, rfl, by simp only [if_true]⟩⟩
      · exact FS.resolve_after_bind (.file s.next) hr rfl rfl
          (Or.inr (fun tg hcon => by cases hcon))
      · intro j hj
        simp only [setInode, hj, if_false]
      · intro j hj
        simp only [hj, ite_self]
    | some d =>
      cases d with
      | dir m => cases h
      | symlink tg => cases h
      | file j =>
        simp only at h
        by_cases hden : s.mayWrite j = false
        · rw [if_pos hden] at h
          cases h
        · rw [if_neg hden] at h
          obtain ⟨h1, h2⟩ := Prod.mk.inj h
          cases h1
          subst h2
          refine ⟨⟨p, (FS.resolve_congr (s := s) rfl rfl true path).trans hr⟩,
            by simp only [setInode_same], by simp only [setInode_same], rfl, rfl, rfl, rfl,
            Ext.refl _, ?_, fun _ hj => hj, Or.inl ⟨⟨p, rfl⟩, rfl, rfl, rfl, ?_⟩⟩
          · intro k hk
            simp only [setInode, hk, if_false]
          · simpa using hden

/-- C9, as amended. For every symbolic-link entry with name `n` and target
`l`: if applying the entry succeeds, `readlink(n)` is exactly `l`; applying the
same entry again on the resulting filesystem does not overwrite anything: it
fails with "file exists" and leaves the filesystem as it is, so `readlink(n)`
is still `l`. -/
theorem writeNewSymbolicLink_once (header : Header) (s s1 : FS)
    (hok : writeNewSymbolicLink header s = (.ok (), s1)) :
    s1.Readlink header.Name = .ok header.Linkname ∧
    writeNewSymbolicLink header s1
      = (.error (.link "symlink" header.Linkname header.Name .EEXIST), s1) := by
  unfold writeNewSymbolicLink at hok
  rcases hm : s.MkdirAll (Dir header.Name) 0o755 with ⟨r, sm⟩
  rw [hm] at hok
  cases r with
  | error err => cases hok
  | ok u =>
    simp only [FS.Symlink] at hok
    by_cases ht : header.Linkname = ""
    · simp [ht] at hok
    · simp only [ht, if_false] at hok
      cases hr : sm.resolve false header.Name with
      | error en => rw [hr] at hok; cases hok
      | ok res =>
        obtain ⟨p, o⟩ := res
        rw [hr] at hok
        cases o with
        | some d => cases hok
        | none =>
          simp only at hok
          have h2 := (Prod.mk.inj hok).2
          subst h2
          obtain ⟨hfree, _⟩ := FS.resolve_none_free hr
          have hr2 : ({ sm with tree := sm.tree.set p (.symlink header.Linkname) } : FS).resolve
              false header.Name = .ok (p, some (.symlink header.Linkname)) :=
            FS.resolve_after_bind (.symlink header.Linkname) hr rfl rfl (Or.inl rfl)
          obtain ⟨_, _, hc, _, _, hu, _⟩ := FS.MkdirAll_fields s (Dir header.Name) 0o755
          rw [hm] at hc hu
          have hm2 := FS.MkdirAll_replay
            (T := { sm with tree := sm.tree.set p (.symlink header.Linkname) }) hm hc hu
            (Ext.set_of_none _ hfree) (by rintro ⟨e1, he⟩; cases he)
          constructor
          · simp only [FS.Readlink, hr2]
          · simp only [writeNewSymbolicLink, hm2, FS.Symlink, ht, if_false, hr2]

theorem writeNewSymbolicLink_once_witness :
    (writeNewSymbolicLink sampleSymlink sampleFS).2.Readlink "d/s" = .ok "f.txt" ∧
    writeNewSymbolicLink sampleSymlink (writeNewSymbolicLink sampleSymlink sampleFS).2
      = (.error (.link "symlink" "f.txt" "d/s" .EEXIST),
          (writeNewSymbolicLink sampleSymlink sampleFS).2) :=
  writeNewSymbolicLink_once sampleSymlink sampleFS _ (Prod.ext rfl rfl)

/-- C9 as stated fails: the first application of the sample symbolic-link
entry succeeds and `readlink` gives the target, but the second application on
the resulting filesystem does not succeed. -/
theorem writeNewSymbolicLink_twice_fails :
    (writeNewSymbolicLink sampleSymlink sampleFS).1 = .ok () ∧
    (writeNewSymbolicLink sampleSymlink sampleFS).2.Readlink "d/s" = .ok "f.txt" ∧
    (writeNewSymbolicLink sampleSymlink
      (writeNewSymbolicLink sampleSymlink sampleFS).2).1 ≠ .ok () := by
  refine ⟨rfl, rfl, ?_⟩
  intro h
  have h2 : (writeNewSymbolicLink sampleSymlink
      (writeNewSymbolicLink sampleSymlink sampleFS).2).1
        = .error (.link "symlink" "f.txt" "d/s" .EEXIST) := rfl
  rw [h2] at h
  cases h

/-- C8. For every hard-link entry with name `n` and link name `l`:
`writeNewHardLink` first runs `MkdirAll` on the directory of `n` and returns
its error if it fails; otherwise its result is that of creating a hard link
named `n` to the path `Join(n, l)`, so it fails when that link creation fails,
and when it succeeds the name `n` is bound to the very entry that
`Join(n, l)` named. -/
theorem writeNewHardLink_source (header : Header) (s : FS) :
    (∀ err s1, s.MkdirAll (Dir header.Name) 0o755 = (.error err, s1) →
      writeNewHardLink header s = (.error err, s1)) ∧
    (∀ s1, s.MkdirAll (Dir header.Name) 0o755 = (.ok (), s1) →
      writeNewHardLink header s = s1.Link (Join header.Name header.Linkname) header.Name ∧
      (∀ err s2, s1.Link (Join header.Name header.Linkname) header.Name = (.error err, s2) →
        writeNewHardLink header s = (.error err, s1)) ∧
      (∀ s2, s1.Link (Join header.Name header.Linkname) header.Name = (.ok (), s2) →
        ∃ src p d, s1.resolve false (Join header.Name header.Linkname) = .ok (src, some d) ∧
          s2.resolve false header.Name = .ok (p, some d))) := by
  constructor
  · intro err s1 hm
    simp only [writeNewHardLink, hm]
  · intro s1 hm
    refine ⟨by simp only [writeNewHardLink, hm], ?_, ?_⟩
    · intro err s2 hl
      simp only [writeNewHardLink, hm, hl]
      have : s2 = s1 := by
        unfold FS.Link at hl
        split at hl
        · exact (Prod.mk.inj hl).2.symm
        · exact (Prod.mk.inj hl).2.symm
        · exact (Prod.mk.inj hl).2.symm
        · split at hl
          · exact (Prod.mk.inj hl).2.symm
          · exact (Prod.mk.inj hl).2.symm
          · cases (Prod.mk.inj hl).1
      rw [this]
    · intro s2 hl
      unfold FS.Link at hl
      split at hl
      · cases (Prod.mk.inj hl).1
      · cases (Prod.mk.inj hl).1
      · cases (Prod.mk.inj hl).1
      · next src d _ hsrc =>
        split at hl
        · cases (Prod.mk.inj hl).1
        · cases (Prod.mk.inj hl).1
        · next p hnew =>
          have h2 := (Prod.mk.inj hl).2
          subst h2
          refine ⟨src, p, d, hsrc, ?_⟩
          have hfree := FS.resolve_none_free hnew
          exact FS.resolve_after_bind d hnew rfl rfl (Or.inl rfl)

/-- Witness of C8: for the entry `d/l` with link name `../f.txt` the source is
`Join("d/l", "../f.txt") = "d/f.txt"`, and after the sample file has been
restored the link is created and names the same inode; with link name `f.txt`
the source is `d/l/f.txt`, not `f.txt` or `d/f.txt`, and the link creation
fails. -/
theorem writeNewHardLink_source_witness :
    (writeNewHardLink sampleHardLink
        sampleRestored
      = sampleRestored.Link "d/f.txt" "d/l") ∧
    (writeNewHardLink sampleHardLink
        sampleRestored).2.tree ["w", "d", "l"]
      = some (.file 0) ∧
    (writeNewHardLink ⟨"d/l", TypeLink, "f.txt", 0o644, ⟨7, 0⟩⟩
        sampleRestored).1
      = .error (.link "link" "d/l/f.txt" "d/l" .ENOENT) :=
  ⟨((writeNewHardLink_source sampleHardLink
      sampleRestored).2 _
      (Prod.ext rfl rfl)).1, rfl, rfl⟩

/-! ## Entry dispatch and the restoration loop -/

/-- C5. For every entry whose type flag is none of directory, regular file
(either flag), character device, block device, FIFO, symbolic link or hard
link, `untarFile` returns the error `<name>: unknown type flag: <flag>` naming
the entry and its type flag, and the filesystem is left exactly as it was. -/
theorem untarFile_unknown (env : Env) (header : Header) (src : FS → Reader) (s : FS)
    (h : header.Typeflag ≠ TypeDir ∧ header.Typeflag ≠ TypeReg ∧
      header.Typeflag ≠ TypeRegA ∧ header.Typeflag ≠ TypeChar ∧
      header.Typeflag ≠ TypeBlock ∧ header.Typeflag ≠ TypeFifo ∧
      header.Typeflag ≠ TypeSymlink ∧ header.Typeflag ≠ TypeLink) :
    untarFile env header src s =
      (.error (.text (header.Name ++ ": unknown type flag: "
        ++ String.singleton (Char.ofNat header.Typeflag))), s) := by
  obtain ⟨h1, h2, h3, h4, h5, h6, h7, h8⟩ := h
  simp only [untarFile, h1, h2, h3, h4, h5, h6, h7, h8, if_false, or_self, unknownTypeFlag]

theorem untarFile_unknown_witness :
    untarFile sampleEnv sampleCont (fun _ => sampleHi) sampleFS
      = (.error (.text ("d/c" ++ ": unknown type flag: " ++ String.singleton (Char.ofNat 55))),
          sampleFS) :=
  untarFile_unknown sampleEnv sampleCont (fun _ => sampleHi) sampleFS (by decide)

/-- After `k` iterations that each applied an entry with success, the loop
goes on from the state reached. -/
theorem untarLoop_run {σ : Type} (env : Env) (tr : TarStream σ) (k : Nat) :
    ∀ (st : σ) (s : FS) (st1 : σ) (s1 : FS), runEntries env tr k st s = some (st1, s1) →
      ∀ fuel, untarLoop env tr (fuel + k) st s = untarLoop env tr fuel st1 s1 := by
  induction k with
  | zero =>
    intro st s st1 s1 h fuel
    simp only [runEntries] at h
    cases h
    rfl
  | succ k ih =>
    intro st s st1 s1 h fuel
    simp only [runEntries] at h
    show untarLoop env tr ((fuel + k) + 1) st s = _
    simp only [untarLoop]
    cases hn : tr.next st s with
    | eof => rw [hn] at h; cases h
    | fault err => rw [hn] at h; cases h
    | entry header st2 =>
      rw [hn] at h
      simp only at h ⊢
      rcases hu : untarFile env header (tr.read st2) s with ⟨r, s2⟩
      rw [hu] at h
      cases r with
      | error err => cases h
      | ok u =>
        simp only at h ⊢
        exact ih st2 s2 st1 s1 h fuel

/-- The three ways the loop ends after `k` successful iterations. -/
theorem untarLoop_end {σ : Type} (env : Env) (tr : TarStream σ) (k : Nat) (st : σ) (s : FS)
    (st1 : σ) (s1 : FS) (h : runEntries env tr k st s = some (st1, s1)) (fuel : Nat)
    (hf : k < fuel) :
    (∀ header st2 err, tr.next st1 s1 = .entry header st2 →
      (untarFile env header (tr.read st2) s1).1 = .error err →
      untarLoop env tr fuel st s = some (.error err, (untarFile env header (tr.read st2) s1).2)) ∧
    (∀ err, tr.next st1 s1 = .fault err → untarLoop env tr fuel st s = some (.error err, s1)) ∧
    (tr.next st1 s1 = .eof → untarLoop env tr fuel st s = some (.ok (), s1)) := by
  obtain ⟨n, rfl⟩ : ∃ n, fuel = (n + 1) + k := ⟨fuel - k - 1, by omega⟩
  rw [untarLoop_run env tr k st s st1 s1 h (n + 1)]
  refine ⟨?_, ?_, ?_⟩
  · intro header st2 err hn hu
    rcases hu2 : untarFile env header (tr.read st2) s1 with ⟨r, s2⟩
    rw [hu2] at hu
    simp only at hu
    subst hu
    simp only [untarLoop, hn, hu2]
  · intro err hn
    simp only [untarLoop, hn]
  · intro hn
    simp only [untarLoop, hn]

/-- What `untarFiles` is once the archive file is open and the reader set up:
the loop over the program's reader, with the call recorded. -/
theorem untarFiles_of_open {env : Env} {fuel : Nat} {compressed : Bool} {w : World}
    {f : Handle} {st0 : Nat} (hopen : w.fs.Open stagingPath = .ok f)
    (hst : (if compressed = true then env.gzipNewReader (w.fs.read f)
      else .ok env.tarNewReader) = .ok st0) :
    untarFiles env fuel compressed w =
      (untarLoop env (fileStream env f) fuel st0 w.fs).map
        (fun x => (x.1, { fs := x.2, requests := w.requests,
                          calls := w.calls ++ [Call.untarFiles compressed] })) := by
  cases compressed with
  | true =>
    simp only [if_true] at hst
    simp only [untarFiles, hopen, hst, if_true]
    cases untarLoop env (fileStream env f) fuel st0 w.fs with
    | none => rfl
    | some x => rfl
  | false =>
    simp only [Bool.false_eq_true, if_false] at hst
    cases Except.ok.inj hst
    simp only [untarFiles, hopen, Bool.false_eq_true, if_false]
    cases untarLoop env (fileStream env f) fuel env.tarNewReader w.fs with
    | none => rfl
    | some x => rfl

/-- C10. `untarFiles`, compressed or not, applies the entries in the order
`Next` hands them out and stops at the first failure.  Let the first `k`
calls of `Next` each hand out an entry that is applied with success, `s` being
the filesystem these `k` entries built.  If the next entry fails, `untarFiles`
returns its error and the filesystem is `s` followed by what the failed
application left: nothing is rolled back and nothing more is decoded or
applied.  If `Next` fails, its error is returned with the filesystem `s`.  If
`Next` reports end-of-stream, `untarFiles` returns success with the
filesystem `s`.  (The bound on the iterations only has to exceed `k`.) -/
theorem untarFiles_first_failure (env : Env) (compressed : Bool) (w : World) (f : Handle)
    (st0 : Nat) (hopen : w.fs.Open stagingPath = .ok f)
    (hst : (if compressed = true then env.gzipNewReader (w.fs.read f)
      else .ok env.tarNewReader) = .ok st0)
    (k : Nat) (st : Nat) (s : FS)
    (hrun : runEntries env (fileStream env f) k st0 w.fs = some (st, s))
    (fuel : Nat) (hfuel : k < fuel) :
    (∀ header st1 err, env.tarNext st (s.read f) = .entry header st1 →
      (untarFile env header (fun x => env.tarRead st1 (x.read f)) s).1 = .error err →
      untarFiles env fuel compressed w =
        some (.error err,
          { fs := (untarFile env header (fun x => env.tarRead st1 (x.read f)) s).2,
            requests := w.requests,
            calls := w.calls ++ [Call.untarFiles compressed] })) ∧
    (∀ err, env.tarNext st (s.read f) = .fault err →
      untarFiles env fuel compressed w =
        some (.error err,
          { fs := s, requests := w.requests,
            calls := w.calls ++ [Call.untarFiles compressed] })) ∧
    (env.tarNext st (s.read f) = .eof →
      untarFiles env fuel compressed w =
        some (.ok (),
          { fs := s, requests := w.requests,
            calls := w.calls ++ [Call.untarFiles compressed] })) := by
  obtain ⟨h1, h2, h3⟩ := untarLoop_end env (fileStream env f) k st0 w.fs st s hrun fuel hfuel
  rw [untarFiles_of_open hopen hst]
  refine ⟨?_, ?_, ?_⟩
  · intro header st1 err hn hu
    rw [h1 header st1 err hn hu]
    rfl
  · intro err hn
    rw [h2 err hn]
    rfl
  · intro hn
    rw [h3 hn]
    rfl

/-- Witness of C10: on the staged bytes `[8]` the directory is created, the
entry of unknown type fails, and the run stops there with the directory in
place and the file after it not restored. -/
theorem untarFiles_first_failure_witness :
    untarFiles sampleEnv 5 false sampleStaged =
      some (.error (.text "d/c: unknown type flag: 7"),
        { fs := (untarFile sampleEnv sampleDir (fun _ => ⟨[], none⟩) sampleStaged.fs).2,
          requests := [],
          calls := [] ++ [Call.untarFiles false] }) :=
  (untarFiles_first_failure sampleEnv false sampleStaged (.file 0) 0 rfl rfl 1 1 _ rfl 5
    (by decide)).1 sampleCont 3 _ rfl rfl

/-! ## Resolution, fetch and the retry policy -/

theorem getCacheDownloadURL_calls (env : Env) (cacheAPIURL : String) (w : World) :
    (getCacheDownloadURL env cacheAPIURL w).2.calls
      = w.calls ++ [Call.getCacheDownloadURL cacheAPIURL] := by
  unfold getCacheDownloadURL clientDo
  simp only
  cases env.urlError cacheAPIURL with
  | some e => rfl
  | none =>
    simp only
    cases env.roundTrip w.requests.length cacheAPIURL with
    | error e => rfl
    | ok resp =>
      simp only
      split
      · rfl
      · split
        · rfl
        · split
          · rfl
          · split <;> rfl

theorem downloadCacheArchive_calls (env : Env) (url : String) (w : World) :
    (downloadCacheArchive env url w).2.calls = w.calls ++ [Call.downloadCacheArchive url] := by
  unfold downloadCacheArchive httpGet clientDo
  simp only
  cases env.urlError url with
  | some e => rfl
  | none =>
    simp only
    cases env.roundTrip w.requests.length url with
    | error e => rfl
    | ok resp =>
      simp only
      split
      · split <;> rfl
      · split
        · rfl
        · split <;> rfl

/-- C1. `downloadFileWithRetry` calls `getCacheDownloadURL` exactly once.  If
that fails, its error is returned and `downloadCacheArchive` is not called.
Otherwise `downloadCacheArchive` is called with the resolved URL; if this
first attempt succeeds the function returns success after that single
attempt; if it fails there is exactly one more attempt, with the same URL and
without resolving again, and its result is the result of the function.  The
calls recorded during the run are listed in each case. -/
theorem downloadFileWithRetry_policy (env : Env) (cacheAPIURL localPath : String) (w : World) :
    (∀ err w1, getCacheDownloadURL env cacheAPIURL w = (.error err, w1) →
      downloadFileWithRetry env cacheAPIURL localPath w = (.error err, w1) ∧
      w1.calls = w.calls ++ [Call.getCacheDownloadURL cacheAPIURL]) ∧
    (∀ url w1, getCacheDownloadURL env cacheAPIURL w = (.ok url, w1) →
      (∀ w2, downloadCacheArchive env url w1 = (.ok (), w2) →
        downloadFileWithRetry env cacheAPIURL localPath w = (.ok (), w2) ∧
        w2.calls = w.calls ++
          [Call.getCacheDownloadURL cacheAPIURL, Call.downloadCacheArchive url]) ∧
      (∀ err1 w2, downloadCacheArchive env url w1 = (.error err1, w2) →
        downloadFileWithRetry env cacheAPIURL localPath w = downloadCacheArchive env url w2 ∧
        (downloadCacheArchive env url w2).2.calls = w.calls ++
          [Call.getCacheDownloadURL cacheAPIURL, Call.downloadCacheArchive url,
            Call.downloadCacheArchive url])) := by
  have hg := getCacheDownloadURL_calls env cacheAPIURL w
  constructor
  · intro err w1 h
    rw [h] at hg
    exact ⟨by simp only [downloadFileWithRetry, h], hg⟩
  · intro url w1 h
    rw [h] at hg
    simp only at hg
    constructor
    · intro w2 h2
      have hd := downloadCacheArchive_calls env url w1
      rw [h2] at hd
      refine ⟨by simp only [downloadFileWithRetry, h, h2], ?_⟩
      simp only at hd
      rw [hd, hg, List.append_assoc]
      rfl
    · intro err1 w2 h2
      have hd := downloadCacheArchive_calls env url w1
      rw [h2] at hd
      refine ⟨by simp only [downloadFileWithRetry, h, h2], ?_⟩
      simp only at hd
      rw [downloadCacheArchive_calls, hd, hg, List.append_assoc, List.append_assoc]
      rfl

/-- Witness of C1: in the sample environment the first fetch attempt fails in
transport and the second succeeds; the URL is resolved once and fetched
twice. -/
theorem downloadFileWithRetry_policy_witness :
    downloadFileWithRetry sampleEnv "http://api/cache" "/tmp/other.tar" sampleWorld
      = downloadCacheArchive sampleEnv "http://x/a.tar"
          (downloadCacheArchive sampleEnv "http://x/a.tar"
            (getCacheDownloadURL sampleEnv "http://api/cache" sampleWorld).2).2 ∧
    (downloadCacheArchive sampleEnv "http://x/a.tar"
      (downloadCacheArchive sampleEnv "http://x/a.tar"
        (getCacheDownloadURL sampleEnv "http://api/cache" sampleWorld).2).2).2.calls
      = [] ++ [Call.getCacheDownloadURL "http://api/cache",
          Call.downloadCacheArchive "http://x/a.tar", Call.downloadCacheArchive "http://x/a.tar"] :=
  ((downloadFileWithRetry_policy sampleEnv "http://api/cache" "/tmp/other.tar" sampleWorld).2
    "http://x/a.tar" _ (Prod.ext rfl rfl)).2 (.text "connection reset") _ (Prod.ext rfl rfl)

theorem untarFiles_calls (env : Env) (fuel : Nat) (compressed : Bool) (w : World)
    (r : Except Err Unit) (w1 : World)
    (h : untarFiles env fuel compressed w = some (r, w1)) :
    w1.calls = w.calls ++ [Call.untarFiles compressed] := by
  unfold untarFiles at h
  simp only at h
  cases ho : w.fs.Open stagingPath with
  | error e =>
    rw [ho] at h
    cases h
    rfl
  | ok f =>
    rw [ho] at h
    simp only at h
    cases compressed with
    | true =>
      simp only [if_true] at h
      cases hg : env.gzipNewReader (w.fs.read f) with
      | error e =>
        rw [hg] at h
        cases h
        rfl
      | ok gzr =>
        rw [hg] at h
        simp only at h
        cases hl : untarLoop env (fileStream env f) fuel gzr w.fs with
        | none => rw [hl] at h; cases h
        | some x =>
          rw [hl] at h
          cases h
          rfl
    | false =>
      simp only [Bool.false_eq_true, if_false] at h
      cases hl : untarLoop env (fileStream env f) fuel env.tarNewReader w.fs with
      | none => rw [hl] at h; cases h
      | some x =>
        rw [hl] at h
        cases h
        rfl

/-- C2. After a successful download `main` continues with the restoration
stage, and in that stage `untarFiles(false)` is attempted first.  If it
succeeds the stage is over and `untarFiles(true)` is never run.  If it
returns an error, `untarFiles(true)` is run once on the state left, and the
run is aborted exactly when that second attempt returns an error too.  The
stage comes to an end exactly when the attempts it makes do. -/
theorem restoreStage_policy (env : Env) (fuel : Nat) (w : World) :
    (∀ w0, env.getenv "cache_api_url" ≠ "" →
      downloadFileWithRetry env (env.getenv "cache_api_url") "/tmp/cache-archive.tar" w0
        = (.ok (), w) →
      main env fuel w0 = restoreStage env fuel w) ∧
    (∀ w1, untarFiles env fuel false w = some (.ok (), w1) →
      restoreStage env fuel w = some (.returned, w1) ∧
      w1.calls = w.calls ++ [Call.untarFiles false]) ∧
    (∀ err1 w1, untarFiles env fuel false w = some (.error err1, w1) →
      ∀ r2 w2, untarFiles env fuel true w1 = some (r2, w2) →
        (restoreStage env fuel w).map Prod.snd = some w2 ∧
        w2.calls = w.calls ++ [Call.untarFiles false, Call.untarFiles true] ∧
        (r2 = .ok () → restoreStage env fuel w = some (.returned, w2)) ∧
        (∀ err2, r2 = .error err2 →
          restoreStage env fuel w
            = some (.fatal ("Failed to uncompress archive, error: " ++ err2.Error), w2))) ∧
    (∀ x, restoreStage env fuel w = some x →
      ((∃ msg, x.1 = .fatal msg) ↔
        ∃ err1 w1 err2 w2, untarFiles env fuel false w = some (.error err1, w1) ∧
          untarFiles env fuel true w1 = some (.error err2, w2))) ∧
    (restoreStage env fuel w = none ↔
      (untarFiles env fuel false w = none ∨
        ∃ err1 w1, untarFiles env fuel false w = some (.error err1, w1) ∧
          untarFiles env fuel true w1 = none)) := by
  refine ⟨?_, ?_, ?_, ?_, ?_⟩
  · intro w0 hne hd
    simp only [main, CreateStepParamsFromEnvs, hne, if_false, hd]
  · intro w1 h
    exact ⟨by simp only [restoreStage, h], untarFiles_calls env fuel false w _ _ h⟩
  · intro err1 w1 h r2 w2 h2
    have hc := untarFiles_calls env fuel false w _ _ h
    have hc2 := untarFiles_calls env fuel true w1 _ _ h2
    have hcalls : w2.calls = w.calls ++ [Call.untarFiles false, Call.untarFiles true] := by
      rw [hc2, hc, List.append_assoc]
      rfl
    cases r2 with
    | ok u =>
      have hr : restoreStage env fuel w = some (.returned, w2) := by
        simp only [restoreStage, h, h2]
      rw [hr]
      exact ⟨rfl, hcalls, fun _ => rfl, fun err2 hcon => (by cases hcon)⟩
    | error err2 =>
      have hr : restoreStage env fuel w
          = some (.fatal ("Failed to uncompress archive, error: " ++ err2.Error), w2) := by
        simp only [restoreStage, h, h2]
      rw [hr]
      exact ⟨rfl, hcalls, fun hcon => (by cases hcon), fun e2 he => (by cases he; rfl)⟩
  · intro x hx
    cases h : untarFiles env fuel false w with
    | none => simp only [restoreStage, h] at hx; cases hx
    | some y =>
      obtain ⟨r1, w1⟩ := y
      cases r1 with
      | ok u =>
        simp only [restoreStage, h] at hx
        cases hx
        constructor
        · rintro ⟨msg, hm⟩; cases hm
        · rintro ⟨e1, w1a, e2, w2a, h1, _⟩; cases h1
      | error err1 =>
        cases h2 : untarFiles env fuel true w1 with
        | none => simp only [restoreStage, h, h2] at hx; cases hx
        | some z =>
          obtain ⟨r2, w2⟩ := z
          cases r2 with
          | ok u =>
            simp only [restoreStage, h, h2] at hx
            cases hx
            constructor
            · rintro ⟨msg, hm⟩; cases hm
            · rintro ⟨e1, w1a, e2, w2a, h1, h3⟩
              cases h1
              rw [h2] at h3
              cases h3
          | error err2 =>
            simp only [restoreStage, h, h2] at hx
            cases hx
            exact ⟨fun _ => ⟨err1, w1, err2, w2, rfl, h2⟩, fun _ => ⟨_, rfl⟩⟩
  · cases h : untarFiles env fuel false w with
    | none => simp [restoreStage, h]
    | some y =>
      obtain ⟨r1, w1⟩ := y
      cases r1 with
      | ok u => simp [restoreStage, h]
      | error err1 =>
        cases h2 : untarFiles env fuel true w1 with
        | none =>
          simp only [restoreStage, h, h2, true_iff]
          exact Or.inr ⟨err1, w1, rfl, h2⟩
        | some z =>
          obtain ⟨r2, w2⟩ := z
          cases r2 <;> simp [restoreStage, h, h2]

/-- Witness of C2: with no staging file both attempts fail and the run is
aborted after exactly the two attempts. -/
theorem restoreStage_policy_witness :
    (restoreStage sampleEnv 5 sampleWorld).map Prod.snd
      = some ⟨sampleFS, [], [Call.untarFiles false, Call.untarFiles true]⟩ ∧
    (⟨sampleFS, [], [Call.untarFiles false, Call.untarFiles true]⟩ : World).calls
      = sampleWorld.calls ++ [Call.untarFiles false, Call.untarFiles true] ∧
    ((.error (.path "open" "/tmp/cache-archive.tar" .ENOENT) : Except Err Unit) = .ok () →
      restoreStage sampleEnv 5 sampleWorld
        = some (.returned, ⟨sampleFS, [], [Call.untarFiles false, Call.untarFiles true]⟩)) ∧
    (∀ err2, (.error (.path "open" "/tmp/cache-archive.tar" .ENOENT) : Except Err Unit)
        = .error err2 →
      restoreStage sampleEnv 5 sampleWorld
        = some (.fatal ("Failed to uncompress archive, error: " ++ err2.Error),
            ⟨sampleFS, [], [Call.untarFiles false, Call.untarFiles true]⟩)) :=
  (restoreStage_policy sampleEnv 5 sampleWorld).2.2.1
    (.path "open" "/tmp/cache-archive.tar" .ENOENT)
    ⟨sampleFS, [], [Call.untarFiles false]⟩ rfl
    (.error (.path "open" "/tmp/cache-archive.tar" .ENOENT))
    ⟨sampleFS, [], [Call.untarFiles false, Call.untarFiles true]⟩ rfl

/-- C6. When the request could be built and sent and the body of the response
was read without error, `getCacheDownloadURL` returns an error exactly when
the status code is below 200 or above 202, or the body does not parse, or the
parsed document has no `download_url` or an empty one; in every other case it
returns exactly the value of `download_url`. -/
theorem getCacheDownloadURL_result (env : Env) (cacheAPIURL : String) (w : World)
    (resp : HttpResponse) (body : Bytes)
    (hurl : env.urlError cacheAPIURL = none)
    (hresp : env.roundTrip w.requests.length cacheAPIURL = .ok resp)
    (hbody : ReadAll resp.Body = .ok body) :
    ((∃ err, (getCacheDownloadURL env cacheAPIURL w).1 = .error err) ↔
      (resp.StatusCode < 200 ∨ resp.StatusCode > 202 ∨
        (∃ err, env.unmarshalDownloadURL body = .error err) ∨
        env.unmarshalDownloadURL body = .ok none ∨
        env.unmarshalDownloadURL body = .ok (some ""))) ∧
    (∀ v, 200 ≤ resp.StatusCode → resp.StatusCode ≤ 202 →
      env.unmarshalDownloadURL body = .ok (some v) → v ≠ "" →
      (getCacheDownloadURL env cacheAPIURL w).1 = .ok v) := by
  have hstep : getCacheDownloadURL env cacheAPIURL w =
      (if resp.StatusCode < 200 ∨ resp.StatusCode > 202 then
        (.error (.text ("Build cache not found. Probably cache not initialised yet "
            ++ "(first cache push initialises the cache), nothing to worry about ;)")),
          { w with calls := w.calls ++ [Call.getCacheDownloadURL cacheAPIURL],
                   requests := w.requests ++ [cacheAPIURL] })
      else
        match env.unmarshalDownloadURL body with
        | .error _ =>
          (.error (.text ("Request sent, but failed to parse JSON response (http-code:"
              ++ toString resp.StatusCode ++ "): " ++ env.stringOfBytes body)),
            { w with calls := w.calls ++ [Call.getCacheDownloadURL cacheAPIURL],
                     requests := w.requests ++ [cacheAPIURL] })
        | .ok field =>
          if field.getD "" = "" then
            (.error (.text ("Request sent, but Download URL is empty (http-code:"
                ++ toString resp.StatusCode ++ "): " ++ env.stringOfBytes body)),
              { w with calls := w.calls ++ [Call.getCacheDownloadURL cacheAPIURL],
                       requests := w.requests ++ [cacheAPIURL] })
          else (.ok (field.getD ""),
              { w with calls := w.calls ++ [Call.getCacheDownloadURL cacheAPIURL],
                       requests := w.requests ++ [cacheAPIURL] })) := by
    simp only [getCacheDownloadURL, clientDo, hurl, hresp, hbody]
  rw [hstep]
  by_cases hs : resp.StatusCode < 200 ∨ resp.StatusCode > 202
  · simp only [hs, if_true]
    constructor
    · constructor
      · intro _
        rcases hs with h1 | h2
        · exact Or.inl h1
        · exact Or.inr (Or.inl h2)
      · intro _; exact ⟨_, rfl⟩
    · intro v h1 h2
      rcases hs with h3 | h3 <;> omega
  · simp only [hs, if_false]
    have hs1 : ¬ resp.StatusCode < 200 := fun h => hs (Or.inl h)
    have hs2 : ¬ resp.StatusCode > 202 := fun h => hs (Or.inr h)
    cases hu : env.unmarshalDownloadURL body with
    | error e =>
      simp only
      constructor
      · exact ⟨fun _ => Or.inr (Or.inr (Or.inl ⟨e, rfl⟩)), fun _ => ⟨_, rfl⟩⟩
      · intro v _ _ hcon
        cases hcon
    | ok field =>
      simp only
      cases field with
      | none =>
        simp only [Option.getD_none, if_true]
        constructor
        · exact ⟨fun _ => Or.inr (Or.inr (Or.inr (Or.inl trivial))), fun _ => ⟨_, rfl⟩⟩
        · intro v _ _ hcon
          cases hcon
      | some v0 =>
        simp only [Option.getD_some]
        by_cases hv : v0 = ""
        · subst hv
          simp only [if_true]
          constructor
          · exact ⟨fun _ => Or.inr (Or.inr (Or.inr (Or.inr trivial))), fun _ => ⟨_, rfl⟩⟩
          · intro v _ _ hcon hne
            cases hcon
            exact absurd rfl hne
        · simp only [hv, if_false]
          constructor
          · constructor
            · rintro ⟨err, hcon⟩
              cases hcon
            · rintro (h | h | ⟨err, h⟩ | h | h)
              · exact absurd h hs1
              · exact absurd h hs2
              · cases h
              · cases h
              · cases h
                exact absurd rfl hv
          · intro v _ _ hcon _
            cases hcon
            rfl

theorem getCacheDownloadURL_result_witness :
    ((∃ err, (getCacheDownloadURL sampleEnv "http://api/cache" sampleWorld).1 = .error err) ↔
      ((200 : Int) < 200 ∨ (200 : Int) > 202 ∨
        (∃ err, sampleEnv.unmarshalDownloadURL [1] = .error err) ∨
        sampleEnv.unmarshalDownloadURL [1] = .ok none ∨
        sampleEnv.unmarshalDownloadURL [1] = .ok (some ""))) ∧
    (∀ v, (200 : Int) ≤ 200 → (200 : Int) ≤ 202 →
      sampleEnv.unmarshalDownloadURL [1] = .ok (some v) → v ≠ "" →
      (getCacheDownloadURL sampleEnv "http://api/cache" sampleWorld).1 = .ok v) :=
  getCacheDownloadURL_result sampleEnv "http://api/cache" sampleWorld ⟨200, ⟨[1], none⟩⟩ [1]
    rfl rfl rfl

/-! ## The staged archive -/

/-- A successful fetch: the request was sent, the response had status 200 and
a body that was read to its end, and the staging file opens and holds exactly
that body. -/
theorem downloadCacheArchive_ok {env : Env} {url : String} {w w2 : World}
    (h : downloadCacheArchive env url w = (.ok (), w2)) :
    ∃ resp, env.roundTrip w.requests.length url = .ok resp ∧ resp.StatusCode = 200 ∧
      resp.Body.err = none ∧ w2.requests = w.requests ++ [url] ∧
      ∃ f, w2.fs.Open stagingPath = .ok f ∧ w2.fs.read f = ⟨resp.Body.data, none⟩ := by
  unfold downloadCacheArchive httpGet clientDo at h
  simp only at h
  cases hu : env.urlError url with
  | some e => rw [hu] at h; cases h
  | none =>
    rw [hu] at h
    simp only at h
    cases hrt : env.roundTrip w.requests.length url with
    | error e => rw [hrt] at h; cases h
    | ok resp =>
      rw [hrt] at h
      simp only at h
      by_cases hs : resp.StatusCode = 200
      · simp only [hs, ne_eq, not_true_eq_false, if_false] at h
        rcases hc : w.fs.Create stagingPath with ⟨rc, fs1⟩
        rw [hc] at h
        cases rc with
        | error e => cases h
        | ok out =>
          simp only [FS.Copy] at h
          cases hbe : resp.Body.err with
          | some e => rw [hbe] at h; cases h
          | none =>
            rw [hbe] at h
            simp only at h
            have h2 := (Prod.mk.inj h).2
            subst h2
            obtain ⟨⟨p, hp⟩, hempty, _⟩ := FS.Create_ok hc
            refine ⟨resp, rfl, hs, hbe, rfl, .file out, ?_, ?_⟩
            · by_cases hd : resp.Body.data = []
              · simp only [hd, if_true, FS.Open, hp]
              · have hp2 : ∀ (g : Nat → Inode) (n : Int),
                    ({ fs1 with inodes := g, now := n } : FS).resolve true stagingPath
                      = .ok (p, some (.file out)) :=
                  fun g n => (FS.resolve_congr (s := fs1) rfl rfl true _).trans hp
                simp only [hd, if_false, FS.Open, hp2]
            · by_cases hd : resp.Body.data = []
              · simp only [hd, if_true, FS.read, hempty]
              · simp only [hd, if_false, FS.read, setInode_same, hempty, List.nil_append]
      · simp only [ne_eq, hs, not_false_eq_true, if_true] at h
        cases hra : ReadAll resp.Body with
        | error e => rw [hra] at h; cases h
        | ok b => rw [hra] at h; cases h

/-- C7. Whenever `downloadFileWithRetry` returns success, whatever the
filesystem held before (the staging file included) and whatever `localPath`
was passed (any other value gives the same outcome): the last call made was a
fetch of some URL, the last request sent was the GET of that URL, it was
answered with status 200 and a body read to its end, the file at
`/tmp/cache-archive.tar` opens and holds exactly that body, and that open file
is what `untarFiles`, compressed or not, runs its loop over. -/
theorem staged_archive (env : Env) (cacheAPIURL localPath : String) (w w2 : World)
    (h : downloadFileWithRetry env cacheAPIURL localPath w = (.ok (), w2)) :
    (∀ other, downloadFileWithRetry env cacheAPIURL other w = (.ok (), w2)) ∧
    ∃ url resp f,
      w2.calls.getLast? = some (Call.downloadCacheArchive url) ∧
      w2.requests.getLast? = some url ∧
      env.roundTrip (w2.requests.length - 1) url = .ok resp ∧
      resp.StatusCode = 200 ∧ resp.Body.err = none ∧
      w2.fs.Open "/tmp/cache-archive.tar" = .ok f ∧
      w2.fs.read f = ⟨resp.Body.data, none⟩ ∧
      ∀ fuel compressed st0,
        (if compressed = true then env.gzipNewReader ⟨resp.Body.data, none⟩
          else .ok env.tarNewReader) = .ok st0 →
        untarFiles env fuel compressed w2 =
          (untarLoop env (fileStream env f) fuel st0 w2.fs).map
            (fun x => (x.1, { fs := x.2, requests := w2.requests,
                              calls := w2.calls ++ [Call.untarFiles compressed] })) := by
  refine ⟨fun other => h, ?_⟩
  have key : ∀ (url : String) (wa : World),
      downloadCacheArchive env url wa = (.ok (), w2) →
      ∃ url resp f,
        w2.calls.getLast? = some (Call.downloadCacheArchive url) ∧
        w2.requests.getLast? = some url ∧
        env.roundTrip (w2.requests.length - 1) url = .ok resp ∧
        resp.StatusCode = 200 ∧ resp.Body.err = none ∧
        w2.fs.Open "/tmp/cache-archive.tar" = .ok f ∧
        w2.fs.read f = ⟨resp.Body.data, none⟩ ∧
        ∀ fuel compressed st0,
          (if compressed = true then env.gzipNewReader ⟨resp.Body.data, none⟩
            else .ok env.tarNewReader) = .ok st0 →
          untarFiles env fuel compressed w2 =
            (untarLoop env (fileStream env f) fuel st0 w2.fs).map
              (fun x => (x.1, { fs := x.2, requests := w2.requests,
                                calls := w2.calls ++ [Call.untarFiles compressed] })) := by
    intro url wa hd
    obtain ⟨resp, hrt, hs, hbe, hreq, f, hopen, hread⟩ := downloadCacheArchive_ok hd
    have hcalls := downloadCacheArchive_calls env url wa
    rw [hd] at hcalls
    simp only at hcalls
    refine ⟨url, resp, f, ?_, ?_, ?_, hs, hbe, hopen, hread, ?_⟩
    · rw [hcalls]; simp
    · rw [hreq]; simp
    · rw [hreq]; simpa using hrt
    · intro fuel compressed st0 hst
      exact untarFiles_of_open hopen (by rw [hread]; exact hst)
  unfold downloadFileWithRetry at h
  simp only at h
  rcases hg : getCacheDownloadURL env cacheAPIURL w with ⟨rg, w1⟩
  rw [hg] at h
  cases rg with
  | error e => cases h
  | ok url =>
    simp only at h
    rcases hd : downloadCacheArchive env url w1 with ⟨rd, wd⟩
    rw [hd] at h
    cases rd with
    | ok u =>
      simp only at h
      have h2 := (Prod.mk.inj h).2
      subst h2
      exact key url w1 hd
    | error e =>
      simp only at h
      exact key url wd h

/-- Witness of C7: in the sample run the first fetch attempt fails, the second
stages the body `[7]`, and `localPath` names another file. -/
theorem staged_archive_witness :
    (∀ other, downloadFileWithRetry sampleEnv "http://api/cache" other sampleWorld
      = (.ok (), (downloadFileWithRetry sampleEnv "http://api/cache" "/tmp/other.tar"
          sampleWorld).2)) ∧
    ∃ url resp f,
      (downloadFileWithRetry sampleEnv "http://api/cache" "/tmp/other.tar"
        sampleWorld).2.calls.getLast? = some (Call.downloadCacheArchive url) ∧
      (downloadFileWithRetry sampleEnv "http://api/cache" "/tmp/other.tar"
        sampleWorld).2.requests.getLast? = some url ∧
      sampleEnv.roundTrip ((downloadFileWithRetry sampleEnv "http://api/cache" "/tmp/other.tar"
        sampleWorld).2.requests.length - 1) url = .ok resp ∧
      resp.StatusCode = 200 ∧ resp.Body.err = none ∧
      (downloadFileWithRetry sampleEnv "http://api/cache" "/tmp/other.tar"
        sampleWorld).2.fs.Open "/tmp/cache-archive.tar" = .ok f ∧
      (downloadFileWithRetry sampleEnv "http://api/cache" "/tmp/other.tar"
        sampleWorld).2.fs.read f = ⟨resp.Body.data, none⟩ ∧
      ∀ fuel compressed st0,
        (if compressed = true then sampleEnv.gzipNewReader ⟨resp.Body.data, none⟩
          else .ok sampleEnv.tarNewReader) = .ok st0 →
        untarFiles sampleEnv fuel compressed (downloadFileWithRetry sampleEnv "http://api/cache"
            "/tmp/other.tar" sampleWorld).2 =
          (untarLoop sampleEnv (fileStream sampleEnv f) fuel st0
              (downloadFileWithRetry sampleEnv "http://api/cache" "/tmp/other.tar"
                sampleWorld).2.fs).map
            (fun x => (x.1, { fs := x.2,
                              requests := (downloadFileWithRetry sampleEnv "http://api/cache"
                                "/tmp/other.tar" sampleWorld).2.requests,
                              calls := (downloadFileWithRetry sampleEnv "http://api/cache"
                                "/tmp/other.tar" sampleWorld).2.calls
                                ++ [Call.untarFiles compressed] })) :=
  staged_archive sampleEnv "http://api/cache" "/tmp/other.tar" sampleWorld _ (Prod.ext rfl rfl)

/-! ## Replaying a restoration -/

theorem hasBit_dropBit_of_lt (m a b : Nat) (hab : a * 2 ∣ b) (ha : 0 < a) :
    hasBit (dropBit m b) a = hasBit m a := by
  obtain ⟨c, hc⟩ := hab
  unfold dropBit
  split
  · next hb =>
    unfold hasBit at hb ⊢
    have hge : b ≤ m := by
      by_contra hlt
      have : m / b = 0 := Nat.div_eq_of_lt (by omega)
      simp [this] at hb
    have h1 : (m - b) / a = m / a - 2 * c := by
      subst hc
      have : m - a * 2 * c = m - a * (2 * c) := by rw [Nat.mul_assoc]
      rw [this, Nat.sub_mul_div _ _ _ (by rw [← Nat.mul_assoc]; exact hge)]
    have h2 : 2 * c ≤ m / a := by
      subst hc
      rw [Nat.le_div_iff_mul_le ha]
      calc 2 * c * a = a * 2 * c := by ring
        _ ≤ m := hge
    rw [h1]
    congr 1
    omega
  · rfl

theorem ownerWritable_killPriv (m : Nat) : ownerWritable (killPriv m) = ownerWritable m := by
  unfold killPriv ownerWritable
  split
  · rw [hasBit_dropBit_of_lt _ 0o200 0o2000 ⟨4, by norm_num⟩ (by norm_num),
      hasBit_dropBit_of_lt _ 0o200 0o4000 ⟨8, by norm_num⟩ (by norm_num)]
  · rw [hasBit_dropBit_of_lt _ 0o200 0o4000 ⟨8, by norm_num⟩ (by norm_num)]

theorem ownerWritable_afterWrite (s : FS) (m : Nat) :
    ownerWritable (s.afterWrite m) = ownerWritable m := by
  unfold FS.afterWrite
  split
  · rfl
  · exact ownerWritable_killPriv m

end CachePull
